import Mathlib

/-!
Verification of the OpenAPI-to-markdown documentation generator
(`main.py`): a shallow embedding of the reference resolver
(`resolve_ref`), the recursive schema renderer (`format_schema`),
the parameter/request-body/response/endpoint formatters, and the
tag-grouping step of `generate_category_docs`, together with proofs
of the specified properties.

JSON values are modelled by the inductive type `Json`.  Python
dictionaries are association lists (`JFields`) preserving insertion
order.  Python exceptions (`TypeError` / `AttributeError` raised on
ill-shaped input) are modelled by the error value `RErr.exn`; the
recursive renderer additionally takes a fuel parameter, with
exhaustion modelled by `RErr.outOfFuel`, and we prove that a
computable fuel bound makes exhaustion impossible.
-/

mutual

/-- A JSON value as produced by `json.load`: `null`, booleans, numbers
(integers; floats are outside the model), strings, arrays and objects.
Objects are ordered association lists, as Python dicts preserve
insertion order. -/
inductive Json where
  | null
  | bool (b : Bool)
  | num (n : Int)
  | str (s : String)
  | arr (elems : JList)
  | obj (fields : JFields)
deriving DecidableEq, Repr

/-- A list of JSON values (the elements of a JSON array). -/
inductive JList where
  | nil
  | cons (hd : Json) (tl : JList)
deriving DecidableEq, Repr

/-- The ordered key/value pairs of a JSON object. -/
inductive JFields where
  | nil
  | cons (key : String) (val : Json) (tl : JFields)
deriving DecidableEq, Repr

end

/-- Build a `JFields` from an ordinary list, for writing object literals. -/
def JFields.ofList : List (String × Json) → JFields
  | [] => .nil
  | (k, v) :: rest => .cons k v (JFields.ofList rest)

/-- Build a `JList` from an ordinary list, for writing array literals. -/
def JList.ofList : List Json → JList
  | [] => .nil
  | x :: rest => .cons x (JList.ofList rest)

/-- Object literal helper. -/
def jobj (l : List (String × Json)) : Json := .obj (JFields.ofList l)

/-- Array literal helper. -/
def jarr (l : List Json) : Json := .arr (JList.ofList l)

/-- Convert a `JList` back to an ordinary list. -/
def JList.toList : JList → List Json
  | .nil => []
  | .cons x rest => x :: rest.toList

/-- The keys of an object, in order. -/
def JFields.keys : JFields → List String
  | .nil => []
  | .cons k _ rest => k :: rest.keys

/-- The values of an object, in order. -/
def JFields.vals : JFields → List Json
  | .nil => []
  | .cons _ v rest => v :: rest.vals

/-- `fsGet fs k` models Python's `d[k]` / `k in d` on a dict: the value
bound to key `k`, if present. -/
def fsGet : JFields → String → Option Json
  | .nil, _ => none
  | .cons k v rest, k' => if k = k' then some v else fsGet rest k'

mutual

/-- Size of a JSON value, the structural measure used for termination. -/
def sizeJ : Json → Nat
  | .obj fs => 1 + sizeF fs
  | .arr xs => 1 + sizeL xs
  | _ => 1

/-- Size of object fields. -/
def sizeF : JFields → Nat
  | .nil => 0
  | .cons _ v rest => 1 + sizeJ v + sizeF rest

/-- Size of array elements. -/
def sizeL : JList → Nat
  | .nil => 0
  | .cons x rest => 1 + sizeJ x + sizeL rest

end

/-- Python truthiness of a JSON value: `None`, `False`, `0`, `""`, `[]`
and `{}` are falsy, everything else truthy. -/
def truthy : Json → Bool
  | .null => false
  | .bool b => b
  | .num n => n != 0
  | .str s => s != ""
  | .arr .nil => false
  | .arr _ => true
  | .obj .nil => false
  | .obj _ => true

/-- Whether `v == True or v == False` holds in Python (`1 == True` and
`0 == False`), used by the `additionalProperties not in [True, False]`
check. -/
def pyBoolLike : Json → Bool
  | .bool _ => true
  | .num n => n == 0 || n == 1
  | _ => false

/-- Join strings with a separator, as Python's `sep.join(...)`. -/
def joinSep (sep : String) : List String → String
  | [] => ""
  | [s] => s
  | s :: rest => s ++ sep ++ joinSep sep rest

mutual

/-- Python `repr` of a JSON value (used by `str` on containers). -/
def pyRepr : Json → String
  | .null => "None"
  | .bool b => if b then "True" else "False"
  | .num n => toString n
  | .str s => "'" ++ s ++ "'"
  | .arr xs => "[" ++ pyReprL xs ++ "]"
  | .obj fs => "\x7b" ++ pyReprF fs ++ "\x7d"

/-- Comma-joined reprs of array elements. -/
def pyReprL : JList → String
  | .nil => ""
  | .cons x .nil => pyRepr x
  | .cons x rest => pyRepr x ++ ", " ++ pyReprL rest

/-- Comma-joined reprs of dict entries. -/
def pyReprF : JFields → String
  | .nil => ""
  | .cons k v .nil => "'" ++ k ++ "': " ++ pyRepr v
  | .cons k v rest => "'" ++ k ++ "': " ++ pyRepr v ++ ", " ++ pyReprF rest

end

/-- Python `str` of a JSON value: the string itself for strings,
`repr` otherwise (nested containers print their elements with `repr`). -/
def pyStr : Json → String
  | .str s => s
  | v => pyRepr v

/-- Python iteration over a value (`for x in v`): arrays yield their
elements, strings their one-character substrings, dicts their keys;
anything else raises `TypeError`, modelled by `none`. -/
def pyIter : Json → Option (List Json)
  | .arr xs => some xs.toList
  | .str s => some (s.toList.map (fun c => Json.str (String.mk [c])))
  | .obj fs => some (fs.keys.map Json.str)
  | _ => none

/-- Substring test, Python's `sub in s` for strings. -/
def isSubstr (sub s : String) : Bool :=
  s.toList.tails.any (fun t => List.isPrefixOf sub.toList t)

/-- Python membership `name in v` for a string `name`: element test for
lists, substring test for strings, key test for dicts; `TypeError`
(`none`) otherwise. -/
def pyContains (v : Json) (name : String) : Option Bool :=
  match v with
  | .arr xs => some (xs.toList.contains (Json.str name))
  | .str s => some (isSubstr name s)
  | .obj fs => some (fs.keys.contains name)
  | _ => none

/-- Indentation prefix, Python's `"  " * indent`. -/
def indentStr (n : Nat) : String := String.join (List.replicate n "  ")

/-- Split a character list on `'/'`, keeping empty segments, with the
accumulated current segment; models Python's `str.split("/")`. -/
def splitSlashAux : List Char → List Char → List String
  | [], acc => [String.mk acc.reverse]
  | c :: cs, acc =>
    if c = '/' then String.mk acc.reverse :: splitSlashAux cs []
    else splitSlashAux cs (c :: acc)

/-- `refParts r` models `r.startswith("#/")` followed by
`r[2:].split("/")`: the key sequence of a reference path, or `none`
when the path does not begin with `#/`. -/
def refParts (r : String) : Option (List String) :=
  match r.toList with
  | '#' :: '/' :: rest => some (splitSlashAux rest [])
  | _ => none

/-- Walk a key sequence from a JSON value, as the loop of `resolve_ref`:
at each step the current value must be a dict holding the key,
otherwise the result is `null` (Python `None`, the not-found sentinel). -/
def walkPath : List String → Json → Json
  | [], cur => cur
  | p :: ps, cur =>
    match cur with
    | .obj fs =>
      match fsGet fs p with
      | some v => walkPath ps v
      | none => .null
    | _ => .null

/-- `resolve_ref` from `main.py`: resolve a `#/a/b/c` reference path
against the specification document, returning the referenced subtree,
or `null` (Python `None`) when the path does not start with `#/` or
some key is missing along the walk. -/
def resolve_ref (ref_path : String) (openapi_spec : Json) : Json :=
  match refParts ref_path with
  | some parts => walkPath parts openapi_spec
  | none => .null

/-- Errors of the embedded renderer: `exn` models a Python exception
(`TypeError` / `AttributeError` on ill-shaped input), `outOfFuel` is
exhaustion of the termination fuel (it never occurs for sufficient
fuel, see the termination theorem). -/
inductive RErr where
  | outOfFuel
  | exn
deriving DecidableEq, Repr

/-- Sequence two rendering computations and concatenate their output;
the first error wins, as exceptions abort Python's string building. -/
def catE (a b : Except RErr String) : Except RErr String :=
  match a with
  | .error e => .error e
  | .ok sa =>
    match b with
    | .error e => .error e
    | .ok sb => .ok (sa ++ sb)

/-- One optional single-line facet of `format_schema` (type,
description, title, default, format, example, pattern, bound keys):
rendered when the key is present, with the value through `str()`,
backtick-quoted when the source f-string quotes it. -/
def facetLine (fs : JFields) (ind : Nat) (key label : String) (tick : Bool) : String :=
  match fsGet fs key with
  | some v =>
    if tick then indentStr ind ++ "- **" ++ label ++ "**: `" ++ pyStr v ++ "`\n"
    else indentStr ind ++ "- **" ++ label ++ "**: " ++ pyStr v ++ "\n"
  | none => ""

/-- Comma-joined backtick-quoted `str()` values, as the enum and
required joins of `format_schema`. -/
def joinedTicks (items : List Json) : String :=
  joinSep ", " (items.map (fun e => "`" ++ pyStr e ++ "`"))

/-- The `enum` facet: joins the iterated values, raising when the enum
value is not iterable. -/
def enumPart (fs : JFields) (ind : Nat) : Except RErr String :=
  match fsGet fs "enum" with
  | some v =>
    match pyIter v with
    | some items => .ok (indentStr ind ++ "- **Enum**: " ++ joinedTicks items ++ "\n")
    | none => .error .exn
  | none => .ok ""

/-- The properties loop of `format_schema`: one bullet per property,
annotated `*(required)*` iff the name is a member of the node's own
`required` value (Python `in`, raising on non-container `required`),
recursing two indent levels deeper with a copy of the visited set. -/
def renderProps (rc : Json → Nat → List String → Except RErr String)
    (props : JFields) (reqVal : Json) (ind : Nat) (seen : List String) :
    Except RErr String :=
  match props with
  | .nil => .ok ""
  | .cons name psch rest =>
    match pyContains reqVal name with
    | none => .error .exn
    | some isReq =>
      catE (.ok (indentStr ind ++ "  - **`" ++ name ++ "`**" ++
            (if isReq then " *(required)*" else "") ++ ":\n"))
        (catE (rc psch (ind + 2) seen) (renderProps rc rest reqVal ind seen))

/-- The numbered-options loop shared by `allOf`/`anyOf`/`oneOf`:
`Option i+1` headers, recursing two indent levels deeper. -/
def renderOptions (rc : Json → Nat → List String → Except RErr String)
    (items : List Json) (idx : Nat) (ind : Nat) (seen : List String) :
    Except RErr String :=
  match items with
  | [] => .ok ""
  | x :: rest =>
    catE (.ok (indentStr ind ++ "  - Option " ++ toString (idx + 1) ++ ":\n"))
      (catE (rc x (ind + 2) seen) (renderOptions rc rest (idx + 1) ind seen))

/-- The `properties` facet: header plus the properties loop; Python's
`.items()` raises when the value under `properties` is not a dict. -/
def propsPart (rc : Json → Nat → List String → Except RErr String)
    (fs : JFields) (ind : Nat) (seen : List String) : Except RErr String :=
  match fsGet fs "properties" with
  | some (.obj props) =>
    catE (.ok (indentStr ind ++ "- **Properties**:\n"))
      (renderProps rc props ((fsGet fs "required").getD (jarr [])) ind seen)
  | some _ => .error .exn
  | none => .ok ""

/-- The `items` facet: header plus recursion one indent level deeper. -/
def itemsPart (rc : Json → Nat → List String → Except RErr String)
    (fs : JFields) (ind : Nat) (seen : List String) : Except RErr String :=
  match fsGet fs "items" with
  | some v => catE (.ok (indentStr ind ++ "- **Items**:\n")) (rc v (ind + 1) seen)
  | none => .ok ""

/-- One composition facet (`allOf`, `anyOf` or `oneOf`): header plus
the numbered options, raising when the value is not iterable. -/
def compPart (rc : Json → Nat → List String → Except RErr String)
    (fs : JFields) (key : String) (ind : Nat) (seen : List String) :
    Except RErr String :=
  match fsGet fs key with
  | some v =>
    match pyIter v with
    | some items =>
      catE (.ok (indentStr ind ++ "- **" ++ key ++ "**:\n"))
        (renderOptions rc items 0 ind seen)
    | none => .error .exn
  | none => .ok ""

/-- The `additionalProperties` facet, rendered only when the value is
not Python-equal to `True` or `False`. -/
def addPropsPart (rc : Json → Nat → List String → Except RErr String)
    (fs : JFields) (ind : Nat) (seen : List String) : Except RErr String :=
  match fsGet fs "additionalProperties" with
  | some v =>
    if pyBoolLike v then .ok ""
    else catE (.ok (indentStr ind ++ "- **Additional Properties**:\n")) (rc v (ind + 1) seen)
  | none => .ok ""

/-- The flat `required` facet, rendered only when the node's declared
type is not `"object"`; iterating a non-iterable `required` raises. -/
def reqPart (fs : JFields) (ind : Nat) : Except RErr String :=
  match fsGet fs "required" with
  | some v =>
    if fsGet fs "type" = some (Json.str "object") then .ok ""
    else
      match pyIter v with
      | some items => .ok (indentStr ind ++ "- **Required**: " ++ joinedTicks items ++ "\n")
      | none => .error .exn
  | none => .ok ""

/-- The keys of the min/max constraint loop. -/
def constraintKeys : List String :=
  ["minimum", "maximum", "minLength", "maxLength", "minItems", "maxItems"]

/-- The constraint lines, one per present bound key. -/
def constraintsPart (fs : JFields) (ind : Nat) : String :=
  String.join (constraintKeys.map (fun k => facetLine fs ind k k true))

/-- The reference-path bullet emitted first for every `$ref` node. -/
def refLine (ind : Nat) (refv : Json) : String :=
  indentStr ind ++ "- **$ref**: `" ++ pyStr refv ++ "`\n"

/-- The circular-reference marker line. -/
def circLine (ind : Nat) : String :=
  indentStr ind ++ "  *(circular reference, see definition above)*\n"

/-- The unable-to-resolve marker line. -/
def unableLine (ind : Nat) : String :=
  indentStr ind ++ "  *(unable to resolve reference)*\n"

/-- The resolved-definition header line. -/
def resolvedHeader (ind : Nat) : String :=
  indentStr ind ++ "  **Resolved Definition**:\n"

/-- The dict case of `format_schema`, parametric in the recursive call
`rc` (taking the sub-schema, the new indent and the visited set).
A `$ref` key short-circuits: the reference bullet, then the circular
marker on re-entry, else (inline mode) the truthiness test of the
resolved value deciding between recursion and the unable marker;
reference-only mode stops at the bullet.  A non-string `$ref` value
raises on the set-membership hash (arrays/dicts) or on `startswith`
(other scalars, inline mode only).  Without `$ref`, the facets render
in the fixed source order. -/
def formatDict (rc : Json → Nat → List String → Except RErr String)
    (fs : JFields) (spec : Json) (ind : Nat) (seen : List String)
    (inline : Bool) : Except RErr String :=
  match fsGet fs "$ref" with
  | some refv =>
    match refv with
    | .str r =>
      if seen.contains r then .ok (refLine ind refv ++ circLine ind)
      else if inline then
        let v := resolve_ref r spec
        if truthy v then
          match rc v (ind + 1) (r :: seen) with
          | .ok sub => .ok (refLine ind refv ++ resolvedHeader ind ++ sub)
          | .error e => .error e
        else .ok (refLine ind refv ++ unableLine ind)
      else .ok (refLine ind refv)
    | .arr _ => .error .exn
    | .obj _ => .error .exn
    | _ => if inline then .error .exn else .ok (refLine ind refv)
  | none =>
    catE (.ok (facetLine fs ind "type" "Type" true))
    (catE (.ok (facetLine fs ind "description" "Description" false))
    (catE (.ok (facetLine fs ind "title" "Title" false))
    (catE (enumPart fs ind)
    (catE (.ok (facetLine fs ind "default" "Default" true))
    (catE (.ok (facetLine fs ind "format" "Format" true))
    (catE (propsPart rc fs ind seen)
    (catE (itemsPart rc fs ind seen)
    (catE (compPart rc fs "allOf" ind seen)
    (catE (compPart rc fs "anyOf" ind seen)
    (catE (compPart rc fs "oneOf" ind seen)
    (catE (addPropsPart rc fs ind seen)
    (catE (reqPart fs ind)
    (catE (.ok (facetLine fs ind "example" "Example" true))
    (catE (.ok (facetLine fs ind "pattern" "Pattern" true))
    (.ok (constraintsPart fs ind))))))))))))))))

/-- `format_schema` from `main.py`: format a schema node as markdown,
resolving `$ref` against the full specification, carrying the
visited-set of reference paths of the current branch and the
inline-vs-reference mode flag.  Fuel decreases on every recursive
call; `outOfFuel` never occurs once the fuel reaches the computable
bound proved below.  Non-dict schemas render as one literal bullet. -/
def format_schema : Nat → Json → Json → Nat → List String → Bool → Except RErr String
  | 0, _, _, _, _, _ => .error .outOfFuel
  | fuel + 1, schema, spec, ind, seen, inline =>
    match schema with
    | .obj fs =>
      formatDict (fun v i sn => format_schema fuel v spec i sn inline) fs spec ind seen inline
    | sc => .ok (indentStr ind ++ "- `" ++ pyStr sc ++ "`\n")

/-- A pure reference node, `{"$ref": r}`. -/
def refNode (r : String) : Json := jobj [("$ref", Json.str r)]

/-- Decidable equality for `Except`, so concrete renderer results can
be checked by `decide`. -/
instance {ε α : Type} [DecidableEq ε] [DecidableEq α] : DecidableEq (Except ε α) := fun a b =>
  match a, b with
  | .ok x, .ok y =>
    if h : x = y then .isTrue (by rw [h]) else .isFalse (fun hh => by cases hh; exact h rfl)
  | .ok _, .error _ => .isFalse (fun hh => by cases hh)
  | .error _, .ok _ => .isFalse (fun hh => by cases hh)
  | .error x, .error y =>
    if h : x = y then .isTrue (by rw [h]) else .isFalse (fun hh => by cases hh; exact h rfl)

/-- Python's `str.upper()` (ASCII). -/
def pyUpper (s : String) : String := String.mk (s.toList.map Char.toUpper)

/-- Python's `str.lower()` (ASCII). -/
def pyLower (s : String) : String := String.mk (s.toList.map Char.toLower)

/-- `getIfIn v k` models the pattern `if k in v: use v[k]`: key lookup
for dicts; for strings and lists a successful `in` is followed by an
indexing `TypeError`; `in` itself raises on other values. -/
def getIfIn (v : Json) (k : String) : Except RErr (Option Json) :=
  match v with
  | .obj fs => .ok (fsGet fs k)
  | .str s => if isSubstr k s then .error .exn else .ok none
  | .arr xs => if xs.toList.contains (Json.str k) then .error .exn else .ok none
  | _ => .error .exn

/-- The per-parameter loop of `format_parameters`: each element must be
a dict (`.get` raises otherwise); name, location, required/optional
marker, optional description, then the parameter's schema at indent 2
with a fresh empty visited set. -/
def paramList (fuel : Nat) (params : List Json) (spec : Json) (inline : Bool) :
    Except RErr String :=
  match params with
  | [] => .ok ""
  | p :: rest =>
    match p with
    | .obj pfs =>
      let pname := (fsGet pfs "name").getD (.str "unknown")
      let pin := (fsGet pfs "in").getD (.str "unknown")
      let req := if truthy ((fsGet pfs "required").getD (.bool false)) then "**Required**" else "Optional"
      let desc := (fsGet pfs "description").getD (.str "")
      let line1 := "- **`" ++ pyStr pname ++ "`** (" ++ pyStr pin ++ ") - " ++ req ++ "\n"
      let dline := if truthy desc then "  - Description: " ++ pyStr desc ++ "\n" else ""
      let schemaPart :=
        match fsGet pfs "schema" with
        | some sch =>
          match format_schema fuel sch spec 2 [] inline with
          | .ok s => Except.ok ("  - Schema:\n" ++ s)
          | .error e => Except.error e
        | none => Except.ok ""
      catE (.ok line1) (catE (.ok dline) (catE schemaPart (catE (.ok "\n") (paramList fuel rest spec inline))))
    | _ => .error .exn

/-- `format_parameters` from `main.py`: a falsy parameters value yields
the literal no-parameters marker; otherwise the value is iterated and
each parameter rendered. -/
def format_parameters (fuel : Nat) (parameters : Json) (spec : Json) (inline : Bool) :
    Except RErr String :=
  if truthy parameters then
    match pyIter parameters with
    | some params => paramList fuel params spec inline
    | none => .error .exn
  else .ok "*No parameters*\n\n"

/-- The per-content-type loop shared by the request-body and response
formatters: content-type bullet, then `if "schema" in spec` the schema
at indent 1 with a fresh empty visited set, then a blank line. -/
def contentList (fuel : Nat) (cts : JFields) (spec : Json) (inline : Bool) :
    Except RErr String :=
  match cts with
  | .nil => .ok ""
  | .cons ct cspec rest =>
    let schemaPart :=
      match getIfIn cspec "schema" with
      | .error e => Except.error e
      | .ok none => Except.ok ""
      | .ok (some sch) => format_schema fuel sch spec 1 [] inline
    catE (.ok ("- **`" ++ ct ++ "`**:\n")) (catE schemaPart (catE (.ok "\n") (contentList fuel rest spec inline)))

/-- `format_request_body` from `main.py`: a falsy body yields the
no-request-body marker; otherwise required flag (through `str`),
optional description, and the per-content-type schemas. -/
def format_request_body (fuel : Nat) (rb : Json) (spec : Json) (inline : Bool) :
    Except RErr String :=
  if truthy rb then
    match rb with
    | .obj fs =>
      let p1 := "**Required**: " ++ pyStr ((fsGet fs "required").getD (.bool false)) ++ "\n\n"
      let p2 :=
        match fsGet fs "description" with
        | some v => "**Description**: " ++ pyStr v ++ "\n\n"
        | none => ""
      let p3 :=
        match fsGet fs "content" with
        | some (.obj cts) =>
          catE (.ok "**Content Types**:\n\n") (contentList fuel cts spec inline)
        | some _ => Except.error .exn
        | none => Except.ok ""
      catE (.ok (p1 ++ p2)) p3
    | _ => .error .exn
  else .ok "*No request body*\n\n"

/-- The per-status-code loop of `format_responses`, preserving document
order: heading, optional description, per-content-type schemas, and a
separator. -/
def responseList (fuel : Nat) (rs : JFields) (spec : Json) (inline : Bool) :
    Except RErr String :=
  match rs with
  | .nil => .ok ""
  | .cons code rspec rest =>
    let dPart :=
      match getIfIn rspec "description" with
      | .error e => Except.error e
      | .ok (some v) => Except.ok ("**Description**: " ++ pyStr v ++ "\n\n")
      | .ok none => Except.ok ""
    let cPart :=
      match getIfIn rspec "content" with
      | .error e => Except.error e
      | .ok (some (.obj cts)) => catE (.ok "**Content**:\n\n") (contentList fuel cts spec inline)
      | .ok (some _) => Except.error .exn
      | .ok none => Except.ok ""
    catE (.ok ("### Response: `" ++ code ++ "`\n\n"))
      (catE dPart (catE cPart (catE (.ok "---\n\n") (responseList fuel rest spec inline))))

/-- `format_responses` from `main.py`: a falsy responses value yields
the no-responses marker; otherwise the per-status-code loop. -/
def format_responses (fuel : Nat) (resps : Json) (spec : Json) (inline : Bool) :
    Except RErr String :=
  if truthy resps then
    match resps with
    | .obj rs => responseList fuel rs spec inline
    | _ => .error .exn
  else .ok "*No responses defined*\n\n"

/-- The scheme lines of one security requirement dict:
`scopes if scopes else "No scopes required"`. -/
def secSchemes : JFields → String
  | .nil => ""
  | .cons name scopes rest =>
    "- **" ++ name ++ "**: " ++ (if truthy scopes then pyStr scopes else "No scopes required") ++ "\n"
      ++ secSchemes rest

/-- The security-requirement loop: each element must be a dict
(`.items()` raises otherwise). -/
def secReqList : List Json → Except RErr String
  | [] => .ok ""
  | r :: rest =>
    match r with
    | .obj fs => catE (.ok (secSchemes fs)) (secReqList rest)
    | _ => .error .exn

/-- The security section body: iterate the `security` value, then each
requirement's schemes. -/
def securityLines (v : Json) : Except RErr String :=
  match pyIter v with
  | some reqs => secReqList reqs
  | none => .error .exn

/-- One optional two-blank-line header facet of `format_endpoint`
(summary, description, operation id): rendered when the key is
present; the `in` test raises on non-container operations. -/
def edPart (ed : Json) (k : String) (render : Json → String) : Except RErr String :=
  match getIfIn ed k with
  | .error e => .error e
  | .ok (some v) => .ok (render v)
  | .ok none => .ok ""

/-- The tags line of `format_endpoint`: comma-joined backtick-quoted
tags, raising when the tags value is not iterable. -/
def tagsPart (ed : Json) : Except RErr String :=
  match getIfIn ed "tags" with
  | .error e => .error e
  | .ok (some v) =>
    match pyIter v with
    | some ts => .ok ("**Tags**: " ++ joinSep ", " (ts.map (fun t => "`" ++ pyStr t ++ "`")) ++ "\n\n")
    | none => .error .exn
  | .ok none => .ok ""

/-- The parameters section of `format_endpoint`: emitted only when the
`parameters` key is present AND its value is truthy (so a present but
empty list is skipped exactly like an absent key). -/
def paramsSection (fuel : Nat) (ed spec : Json) (il : Bool) : Except RErr String :=
  match getIfIn ed "parameters" with
  | .error e => .error e
  | .ok (some v) =>
    if truthy v then
      match format_parameters fuel v spec il with
      | .ok s => .ok ("### Parameters\n\n" ++ s)
      | .error e => .error e
    else .ok ""
  | .ok none => .ok ""

/-- The request-body section of `format_endpoint`: emitted whenever
the `requestBody` key is present. -/
def bodySection (fuel : Nat) (ed spec : Json) (il : Bool) : Except RErr String :=
  match getIfIn ed "requestBody" with
  | .error e => .error e
  | .ok (some v) =>
    match format_request_body fuel v spec il with
    | .ok s => .ok ("### Request Body\n\n" ++ s)
    | .error e => .error e
  | .ok none => .ok ""

/-- The responses section of `format_endpoint`: emitted whenever the
`responses` key is present. -/
def responsesSection (fuel : Nat) (ed spec : Json) (il : Bool) : Except RErr String :=
  match getIfIn ed "responses" with
  | .error e => .error e
  | .ok (some v) =>
    match format_responses fuel v spec il with
    | .ok s => .ok ("### Responses\n\n" ++ s)
    | .error e => .error e
  | .ok none => .ok ""

/-- The security section of `format_endpoint`. -/
def securitySection (ed : Json) : Except RErr String :=
  match getIfIn ed "security" with
  | .error e => .error e
  | .ok (some v) =>
    match securityLines v with
    | .ok s => .ok ("### Security\n\n" ++ s ++ "\n")
    | .error e => .error e
  | .ok none => .ok ""

/-- `format_endpoint` from `main.py`: heading, summary, description,
operation id, tags, separator, the parameters section (emitted only
when the `parameters` key is present AND its value truthy), the
request-body and responses sections (emitted when the key is present),
the security section, and a trailing separator. -/
def format_endpoint (fuel : Nat) (path method : String) (ed : Json) (spec : Json)
    (inline : Bool) : Except RErr String :=
  catE (.ok ("## `" ++ pyUpper method ++ " " ++ path ++ "`\n\n"))
  (catE (edPart ed "summary" (fun v => "**Summary**: " ++ pyStr v ++ "\n\n"))
  (catE (edPart ed "description" (fun v => "**Description**: " ++ pyStr v ++ "\n\n"))
  (catE (edPart ed "operationId" (fun v => "**Operation ID**: `" ++ pyStr v ++ "`\n\n"))
  (catE (tagsPart ed)
  (catE (.ok "---\n\n")
  (catE (paramsSection fuel ed spec inline)
  (catE (bodySection fuel ed spec inline)
  (catE (responsesSection fuel ed spec inline)
  (catE (securitySection ed)
  (.ok "\n---\n\n"))))))))))

/-- An endpoint record: (path, HTTP method, operation object). -/
abbrev Entry := String × String × Json

/-- The recognized HTTP methods of `generate_category_docs`. -/
def httpMethods : List String :=
  ["get", "post", "put", "delete", "patch", "options", "head"]

/-- `method.lower() in [...]`, the method filter of the grouping loop. -/
def isHttpMethod (m : String) : Bool := httpMethods.contains (pyLower m)

/-- `endpoint_data.get("tags", ["Uncategorized"])` followed by
iteration: raises when the operation is not a dict or its tags value
is not iterable. -/
def tagsOf (ed : Json) : Except RErr (List Json) :=
  match ed with
  | .obj fs =>
    match pyIter ((fsGet fs "tags").getD (jarr [Json.str "Uncategorized"])) with
    | some ts => .ok ts
    | none => .error .exn
  | _ => .error .exn

/-- Append an endpoint record to a tag's list in the categories dict:
present keys keep their position and get the record appended, a new
tag is inserted at the end (dict insertion order). -/
def addEntry : List (Json × List Entry) → Json → Entry → List (Json × List Entry)
  | [], t, e => [(t, [e])]
  | (u, l) :: rest, t, e =>
    if u = t then (u, l ++ [e]) :: rest else (u, l) :: addEntry rest t e

/-- Add one record under every tag of its list, raising on unhashable
(array/dict) tags as Python set/dict keys would. -/
def addTags (cats : List (Json × List Entry)) (ts : List Json) (e : Entry) :
    Except RErr (List (Json × List Entry)) :=
  match ts with
  | [] => .ok cats
  | t :: rest =>
    match t with
    | .arr _ => .error .exn
    | .obj _ => .error .exn
    | _ => addTags (addEntry cats t e) rest e

/-- The inner loop of the grouping step: over the methods of one path
item, skipping unrecognized methods, adding each operation under each
of its tags. -/
def groupMethods (path : String) (mfs : JFields) (cats : List (Json × List Entry)) :
    Except RErr (List (Json × List Entry)) :=
  match mfs with
  | .nil => .ok cats
  | .cons method ed rest =>
    if isHttpMethod method then
      match tagsOf ed with
      | .error e => .error e
      | .ok ts =>
        match addTags cats ts (path, method, ed) with
        | .error e => .error e
        | .ok cats2 => groupMethods path rest cats2
    else groupMethods path rest cats

/-- The outer loop of the grouping step, over the entries of `paths`. -/
def groupPaths (paths : JFields) (cats : List (Json × List Entry)) :
    Except RErr (List (Json × List Entry)) :=
  match paths with
  | .nil => .ok cats
  | .cons path pd rest =>
    match pd with
    | .obj mfs =>
      match groupMethods path mfs cats with
      | .error e => .error e
      | .ok cats2 => groupPaths rest cats2
    | _ => .error .exn

/-- The grouping step of `generate_category_docs` (lines 309-321 of
`main.py`): walk `openapi_spec.get("paths", {})` and group the
(path, method, operation) records by tag. -/
def groupEndpoints (spec : Json) : Except RErr (List (Json × List Entry)) :=
  match spec with
  | .obj sfs =>
    match (fsGet sfs "paths").getD (jobj []) with
    | .obj paths => groupPaths paths []
    | _ => .error .exn
  | _ => .error .exn

/-- Look up a tag's endpoint list in the categories dict (empty when
the tag is absent). -/
def catLookup : List (Json × List Entry) → Json → List Entry
  | [], _ => []
  | (u, l) :: rest, t => if u = t then l else catLookup rest t

/-- The flat (tag, record) pairs produced by the tags of one
operation, raising on unhashable tags. -/
def tagPairs (ts : List Json) (e : Entry) : Except RErr (List (Json × Entry)) :=
  match ts with
  | [] => .ok []
  | t :: rest =>
    match t with
    | .arr _ => .error .exn
    | .obj _ => .error .exn
    | _ =>
      match tagPairs rest e with
      | .error er => .error er
      | .ok l => .ok ((t, e) :: l)

/-- The flat traversal of one path item: the (tag, record) pairs in
iteration order. -/
def flatMethods (path : String) (mfs : JFields) : Except RErr (List (Json × Entry)) :=
  match mfs with
  | .nil => .ok []
  | .cons method ed rest =>
    if isHttpMethod method then
      match tagsOf ed with
      | .error e => .error e
      | .ok ts =>
        match tagPairs ts (path, method, ed) with
        | .error e => .error e
        | .ok l1 =>
          match flatMethods path rest with
          | .error e => .error e
          | .ok l2 => .ok (l1 ++ l2)
    else flatMethods path rest

/-- The flat traversal of all path items: every (tag, record) pair the
grouping loop processes, in order. -/
def flatPaths (paths : JFields) : Except RErr (List (Json × Entry)) :=
  match paths with
  | .nil => .ok []
  | .cons path pd rest =>
    match pd with
    | .obj mfs =>
      match flatMethods path mfs with
      | .error e => .error e
      | .ok l1 =>
        match flatPaths rest with
        | .error e => .error e
        | .ok l2 => .ok (l1 ++ l2)
    | _ => .error .exn

mutual

/-- No `$ref` key occurs anywhere in the subtree. -/
def noRef : Json → Bool
  | .obj fs => noRefF fs
  | .arr xs => noRefL xs
  | _ => true

/-- No `$ref` key in these fields or below them. -/
def noRefF : JFields → Bool
  | .nil => true
  | .cons k v rest => decide (k ≠ "$ref") && noRef v && noRefF rest

/-- No `$ref` key in these elements or below them. -/
def noRefL : JList → Bool
  | .nil => true
  | .cons x rest => noRef x && noRefL rest

end

/-- The value can be iterated (and `in`-tested) without a `TypeError`. -/
def iterOk : Json → Bool
  | .arr _ => true
  | .str _ => true
  | .obj _ => true
  | _ => false

/-- Local well-shapedness of an object node for the renderer: a
present `$ref` must be a string (and then nothing else is read);
otherwise `enum`, `required` and the composition keys must be
iterable when present, and `properties` must be a dict when present. -/
def localOk (fs : JFields) : Bool :=
  match fsGet fs "$ref" with
  | some (.str _) => true
  | some _ => false
  | none =>
    (match fsGet fs "enum" with | some v => iterOk v | none => true) &&
    (match fsGet fs "properties" with | some (.obj _) => true | some _ => false | none => true) &&
    (match fsGet fs "required" with | some v => iterOk v | none => true) &&
    (match fsGet fs "allOf" with | some v => iterOk v | none => true) &&
    (match fsGet fs "anyOf" with | some v => iterOk v | none => true) &&
    (match fsGet fs "oneOf" with | some v => iterOk v | none => true)

mutual

/-- Deep well-shapedness: every object subtree is locally well-shaped.
Sufficient for the renderer never to raise, wherever `$ref` may jump. -/
def wf : Json → Bool
  | .obj fs => localOk fs && wfF fs
  | .arr xs => wfL xs
  | _ => true

/-- Deep well-shapedness of field values. -/
def wfF : JFields → Bool
  | .nil => true
  | .cons _ v rest => wf v && wfF rest

/-- Deep well-shapedness of array elements. -/
def wfL : JList → Bool
  | .nil => true
  | .cons x rest => wf x && wfL rest

end

mutual

/-- All key sequences walkable from a JSON value: the empty sequence
at every node, extended through dict keys. -/
def keySeqs : Json → List (List String)
  | .obj fs => [] :: keySeqsF fs
  | _ => [[]]

/-- The non-empty walkable key sequences through these fields. -/
def keySeqsF : JFields → List (List String)
  | .nil => []
  | .cons k v rest => (keySeqs v).map (fun ks => k :: ks) ++ keySeqsF rest

end

/-- Join path segments back with slashes, character-level. -/
def joinParts : List String → List Char
  | [] => []
  | [p] => p.toList
  | p :: ps => p.toList ++ '/' :: joinParts ps

/-- The canonical reference-path string of a key sequence. -/
def canon (ks : List String) : String := String.mk ('#' :: '/' :: joinParts ks)

/-- All reference-path strings that can resolve inside the document. -/
def pathStrings (doc : Json) : List String := (keySeqs doc).map canon

/-- How many distinct resolvable reference paths of the document are
not yet on the visited set: the component of the termination measure
that every inline `$ref` expansion strictly decreases. -/
def budget (doc : Json) (seen : List String) : Nat :=
  ((pathStrings doc).dedup.filter (fun p => !seen.contains p)).length

/-- A fuel amount sufficient for `format_schema` to terminate without
exhaustion: the schema size plus one full document size per reference
path that can still be expanded. -/
def fuelBound (schema doc : Json) (seen : List String) : Nat :=
  sizeJ schema + budget doc seen * (sizeJ doc + 1)

/-- Does `resolve_ref v spec` return exactly the pure reference node
`{"$ref": r}`? -/
def isRefNodeTo (v : Json) (r : String) : Bool := v = refNode r

/-- `chainTo spec seen rs` holds when `rs` is a reference chain from
the current state: each path is fresh, resolves to a pure `$ref` node
pointing at the next path, and the last path re-enters the visited
set accumulated along the branch. -/
def chainTo (spec : Json) (seen : List String) : List String → Bool
  | [] => false
  | [r] => seen.contains r
  | r :: r2 :: rest =>
    !seen.contains r && isRefNodeTo (resolve_ref r spec) r2
      && chainTo spec (r :: seen) (r2 :: rest)

/-- The output of rendering a reference chain: one bullet and one
resolved-definition header per link, and exactly one circular marker
at the re-entry point. -/
def chainOut (ind : Nat) : List String → String
  | [] => ""
  | [r] => refLine ind (Json.str r) ++ circLine ind
  | r :: r2 :: rest =>
    refLine ind (Json.str r) ++ resolvedHeader ind ++ chainOut (ind + 1) (r2 :: rest)

/-- Unfolding of `format_schema` at positive fuel on a dict schema. -/
theorem format_schema_succ (fuel : Nat) (fs : JFields) (spec : Json) (ind : Nat)
    (seen : List String) (inline : Bool) :
    format_schema (fuel + 1) (.obj fs) spec ind seen inline =
      formatDict (fun v i sn => format_schema fuel v spec i sn inline) fs spec ind seen inline := rfl

/-- A `$ref` whose path is already on the visited set renders the
bullet and the circular marker, independently of fuel, document,
resolvability and mode. -/
theorem refBranch_circ (fuel : Nat) (fs : JFields) (spec : Json) (ind : Nat)
    (seen : List String) (inline : Bool) (r : String)
    (href : fsGet fs "$ref" = some (.str r)) (hseen : r ∈ seen) :
    format_schema (fuel + 1) (.obj fs) spec ind seen inline =
      .ok (refLine ind (Json.str r) ++ circLine ind) := by
  rw [format_schema_succ]
  simp [formatDict, href, hseen]

/-- With inlining off, a fresh `$ref` renders the bullet only. -/
theorem refBranch_off (fuel : Nat) (fs : JFields) (spec : Json) (ind : Nat)
    (seen : List String) (r : String)
    (href : fsGet fs "$ref" = some (.str r)) (hseen : r ∉ seen) :
    format_schema (fuel + 1) (.obj fs) spec ind seen false = .ok (refLine ind (Json.str r)) := by
  rw [format_schema_succ]
  simp [formatDict, href, hseen]

/-- With inlining on, a fresh `$ref` whose resolved value is truthy
recurses into it one indent level deeper with the extended visited
set. -/
theorem refBranch_truthy (fuel : Nat) (fs : JFields) (spec : Json) (ind : Nat)
    (seen : List String) (r : String) (href : fsGet fs "$ref" = some (.str r))
    (hseen : r ∉ seen) (ht : truthy (resolve_ref r spec) = true) :
    format_schema (fuel + 1) (.obj fs) spec ind seen true =
      (match format_schema fuel (resolve_ref r spec) spec (ind + 1) (r :: seen) true with
       | .ok sub => .ok (refLine ind (Json.str r) ++ resolvedHeader ind ++ sub)
       | .error e => .error e) := by
  rw [format_schema_succ]
  simp [formatDict, href, hseen, ht]

/-- With inlining on, a fresh `$ref` whose resolved value is falsy
(including a successful resolution to `{}`, `0`, `false`, ...) renders
the bullet and the unable-to-resolve marker. -/
theorem refBranch_falsy (fuel : Nat) (fs : JFields) (spec : Json) (ind : Nat)
    (seen : List String) (r : String) (href : fsGet fs "$ref" = some (.str r))
    (hseen : r ∉ seen) (ht : truthy (resolve_ref r spec) = false) :
    format_schema (fuel + 1) (.obj fs) spec ind seen true =
      .ok (refLine ind (Json.str r) ++ unableLine ind) := by
  rw [format_schema_succ]
  simp [formatDict, href, hseen, ht]

/-- Rendering a reference chain of length `n` needs exactly `n` units
of fuel (one call per link) and produces one bullet per link with a
single circular marker at the re-entry point. -/
theorem chain_render (spec : Json) : ∀ rs : List String, ∀ ind : Nat, ∀ seen : List String,
    chainTo spec seen rs = true →
    format_schema rs.length (refNode (rs.headD "")) spec ind seen true = .ok (chainOut ind rs) := by
  intro rs
  induction rs with
  | nil => intro ind seen h; simp [chainTo] at h
  | cons r tail ih =>
    intro ind seen h
    cases tail with
    | nil =>
      simp only [chainTo] at h
      have hmem : r ∈ seen := by simpa using h
      have := refBranch_circ 0 (JFields.ofList [("$ref", .str r)]) spec ind seen true r rfl hmem
      simpa [refNode, jobj, chainOut] using this
    | cons r2 rest =>
      simp only [chainTo, Bool.and_eq_true, Bool.not_eq_true'] at h
      obtain ⟨⟨hnotin, hres⟩, hchain⟩ := h
      have hnotin' : r ∉ seen := by simpa using hnotin
      have hres' : resolve_ref r spec = refNode r2 := by
        simpa [isRefNodeTo] using hres
      have ht : truthy (resolve_ref r spec) = true := by
        rw [hres']; rfl
      have step := refBranch_truthy ((r2 :: rest).length) (JFields.ofList [("$ref", .str r)])
        spec ind seen r rfl hnotin' ht
      have ihh := ih (ind + 1) (r :: seen) hchain
      rw [hres'] at step
      simp only [List.headD_cons] at ihh
      show format_schema ((r2 :: rest).length + 1) (refNode r) spec ind seen true =
        .ok (chainOut ind (r :: r2 :: rest))
      rw [show refNode r = Json.obj (JFields.ofList [("$ref", .str r)]) from rfl, step, ihh]
      simp [chainOut]

/-- C1: a `$ref` whose reference path re-enters the current branch's
visited set renders the reference bullet followed by exactly one
circular-reference marker and returns without recursing into the
resolved node (one fuel unit suffices); and a whole reference chain of
length `n` re-entering at its last link renders with `n` units of fuel
(one recursive call per ancestor link) and exactly one circular marker
at the point of re-entry. -/
theorem claim_C1 :
    (∀ fuel fs spec ind seen inline r, fsGet fs "$ref" = some (Json.str r) → r ∈ seen →
      format_schema (fuel + 1) (Json.obj fs) spec ind seen inline =
        .ok (refLine ind (Json.str r) ++ circLine ind)) ∧
    (∀ spec rs ind seen, chainTo spec seen rs = true →
      format_schema rs.length (refNode (rs.headD "")) spec ind seen true = .ok (chainOut ind rs)) :=
  ⟨fun fuel fs spec ind seen inline r href hseen =>
      refBranch_circ fuel fs spec ind seen inline r href hseen,
   fun spec rs ind seen h => chain_render spec rs ind seen h⟩

/-- The two-link cyclic document used to witness C1. -/
def chainDoc : Json := jobj [("x", refNode "#/y"), ("y", refNode "#/x")]

/-- Witness for C1: the A-to-B-to-A chain through `chainDoc` renders
with fuel 3 and one circular marker, and a directly re-entered
reference renders the bullet plus marker with fuel 1. -/
theorem claim_C1_witness :
    format_schema 3 (refNode ("#/x")) chainDoc 0 [] true =
      .ok (chainOut 0 ["#/x", "#/y", "#/x"]) ∧
    format_schema 1 (refNode "#/a") (jobj []) 0 ["#/a"] true =
      .ok (refLine 0 (Json.str "#/a") ++ circLine 0) :=
  ⟨claim_C1.2 chainDoc ["#/x", "#/y", "#/x"] 0 [] (by decide),
   claim_C1.1 0 (JFields.ofList [("$ref", .str "#/a")]) (jobj []) 0 ["#/a"] true "#/a" rfl
     (by decide)⟩

/-- Counterexample to C2 as stated: the reference path `#/a` resolves
successfully to the empty object (not Python `None`), yet the renderer
emits the unable-to-resolve marker instead of recursing. -/
theorem claim_C2_counterexample :
    resolve_ref "#/a" (jobj [("a", jobj [])]) = jobj [] ∧
    jobj [] ≠ Json.null ∧
    format_schema 2 (refNode "#/a") (jobj [("a", jobj [])]) 0 [] true =
      .ok (refLine 0 (Json.str "#/a") ++ unableLine 0) := by
  refine ⟨by decide, by decide, by decide⟩

/-- C2 (amended): for a fresh `$ref` in inline mode the
unable-to-resolve marker is emitted exactly when the resolved value is
Python-falsy (`None` for a failed resolution, but also a successful
resolution to `{}`, `[]`, `0`, `false`, `""` or `null`); only a truthy
resolved value is recursed into, one indent level deeper with the
extended visited-set copy. -/
theorem claim_C2 (fuel : Nat) (fs : JFields) (spec : Json) (ind : Nat) (seen : List String)
    (r : String) (href : fsGet fs "$ref" = some (Json.str r)) (hseen : r ∉ seen) :
    (truthy (resolve_ref r spec) = false →
      format_schema (fuel + 1) (Json.obj fs) spec ind seen true =
        .ok (refLine ind (Json.str r) ++ unableLine ind)) ∧
    (truthy (resolve_ref r spec) = true →
      format_schema (fuel + 1) (Json.obj fs) spec ind seen true =
        (match format_schema fuel (resolve_ref r spec) spec (ind + 1) (r :: seen) true with
         | .ok sub => .ok (refLine ind (Json.str r) ++ resolvedHeader ind ++ sub)
         | .error e => .error e)) :=
  ⟨fun ht => refBranch_falsy fuel fs spec ind seen r href hseen ht,
   fun ht => refBranch_truthy fuel fs spec ind seen r href hseen ht⟩

/-- Witness for the amended C2: a reference resolving to a falsy empty
object yields the marker, and one resolving to a truthy object is
inlined. -/
theorem claim_C2_witness :
    format_schema 2 (refNode "#/a") (jobj [("a", jobj [])]) 0 [] true =
      .ok (refLine 0 (Json.str "#/a") ++ unableLine 0) ∧
    format_schema 2 (refNode "#/b") (jobj [("b", jobj [("type", Json.str "string")])]) 0 [] true =
      .ok (refLine 0 (Json.str "#/b") ++ resolvedHeader 0 ++ facetLine (JFields.ofList [("type", Json.str "string")]) 1 "type" "Type" true) :=
  ⟨(claim_C2 1 (JFields.ofList [("$ref", .str "#/a")]) (jobj [("a", jobj [])]) 0 [] "#/a" rfl
      (by decide)).1 (by decide),
   by
    have h := (claim_C2 1 (JFields.ofList [("$ref", .str "#/b")])
      (jobj [("b", jobj [("type", Json.str "string")])]) 0 [] "#/b" rfl (by decide)).2 (by decide)
    exact h.trans (by decide)⟩

/-- C6: with inlining disabled, any reachable `$ref` node (a fresh
reference path; the visited set never grows in reference-only mode)
renders the reference bullet only, with no resolved-definition
sub-block and no unable-to-resolve marker, whether or not the path
resolves. -/
theorem claim_C6 (fuel : Nat) (fs : JFields) (spec : Json) (ind : Nat) (seen : List String)
    (r : String) (href : fsGet fs "$ref" = some (Json.str r)) (hseen : r ∉ seen) :
    format_schema (fuel + 1) (Json.obj fs) spec ind seen false = .ok (refLine ind (Json.str r)) :=
  refBranch_off fuel fs spec ind seen r href hseen

/-- Witness for C6: with inlining off, both a resolvable and an
unresolvable reference render the bullet only. -/
theorem claim_C6_witness :
    format_schema 5 (refNode "#/a") (jobj [("a", jobj [("type", Json.str "string")])]) 0 [] false =
      .ok (refLine 0 (Json.str "#/a")) ∧
    format_schema 5 (refNode "#/missing") (jobj []) 0 [] false =
      .ok (refLine 0 (Json.str "#/missing")) :=
  ⟨claim_C6 4 (JFields.ofList [("$ref", .str "#/a")]) (jobj [("a", jobj [("type", Json.str "string")])])
      0 [] "#/a" rfl (by decide),
   claim_C6 4 (JFields.ofList [("$ref", .str "#/missing")]) (jobj []) 0 [] "#/missing" rfl
      (by decide)⟩

/-- C7: `resolve_ref` yields the not-found sentinel for any path not
beginning with `#/`; otherwise it walks the slash-separated keys from
the document root, failing as soon as the current value is not a dict
or lacks the next key, and returning the referenced subtree when every
key in sequence is present. -/
theorem claim_C7 :
    (∀ (r : String) (spec : Json), r.toList.take 2 ≠ ['#', '/'] → resolve_ref r spec = Json.null) ∧
    (∀ (t : List Char) (spec : Json),
      resolve_ref (String.mk ('#' :: '/' :: t)) spec = walkPath (splitSlashAux t []) spec) ∧
    (∀ cur : Json, walkPath [] cur = cur) ∧
    (∀ (p : String) (ps : List String) (fs : JFields) (v : Json),
      fsGet fs p = some v → walkPath (p :: ps) (Json.obj fs) = walkPath ps v) ∧
    (∀ (p : String) (ps : List String) (fs : JFields),
      fsGet fs p = none → walkPath (p :: ps) (Json.obj fs) = Json.null) ∧
    (∀ (p : String) (ps : List String) (cur : Json),
      (∀ fs, cur ≠ Json.obj fs) → walkPath (p :: ps) cur = Json.null) := by
  refine ⟨?_, ?_, ?_, ?_, ?_, ?_⟩
  · intro r spec h
    simp only [resolve_ref, refParts]
    split
    · rename_i rest heq
      split at heq
      · rename_i rest2 heq2
        exfalso
        apply h
        rw [heq2]
        rfl
      · simp at heq
    · rfl
  · intro t spec
    rfl
  · intro cur
    rfl
  · intro p ps fs v h
    simp [walkPath, h]
  · intro p ps fs h
    simp [walkPath, h]
  · intro p ps cur h
    cases cur <;> simp [walkPath]
    exact absurd rfl (h _)

/-- Witness for C7: each clause of the resolver contract at a concrete
input: a relative path, the `#/a` walk, a present key, a missing key,
and a non-dict step. -/
theorem claim_C7_witness :
    resolve_ref "abc" (jobj [("a", Json.num 1)]) = Json.null ∧
    resolve_ref (String.mk ('#' :: '/' :: String.toList "a")) (jobj [("a", Json.num 1)]) =
      walkPath (splitSlashAux (String.toList "a") []) (jobj [("a", Json.num 1)]) ∧
    walkPath ["a"] (Json.obj (JFields.ofList [("a", Json.num 1)])) = walkPath [] (Json.num 1) ∧
    walkPath ["b"] (Json.obj (JFields.ofList [("a", Json.num 1)])) = Json.null ∧
    walkPath ["a"] (Json.num 7) = Json.null :=
  ⟨claim_C7.1 "abc" (jobj [("a", Json.num 1)]) (by decide),
   claim_C7.2.1 (String.toList "a") (jobj [("a", Json.num 1)]),
   claim_C7.2.2.2.1 "a" [] (JFields.ofList [("a", Json.num 1)]) (Json.num 1) (by decide),
   claim_C7.2.2.2.2.1 "b" [] (JFields.ofList [("a", Json.num 1)]) (by decide),
   claim_C7.2.2.2.2.2 "a" [] (Json.num 7) (fun fs h => Json.noConfusion h)⟩

/-- Remove every binding of a key from object fields. -/
def removeKey : JFields → String → JFields
  | .nil, _ => .nil
  | .cons k v rest, key => if k = key then removeKey rest key else .cons k v (removeKey rest key)

/-- Lookup after removal: the removed key is gone, the others keep
their bindings. -/
theorem fsGet_removeKey : ∀ (fs : JFields) (key k' : String),
    fsGet (removeKey fs key) k' = if k' = key then none else fsGet fs k'
  | .nil, key, k' => by simp [removeKey, fsGet]
  | .cons k v rest, key, k' => by
    have ih := fsGet_removeKey rest key k'
    simp only [removeKey, fsGet]
    split_ifs <;> simp_all [fsGet]

/-- Counterexample to C3 as stated: an operation whose `parameters`
key is present but bound to the empty list renders with no parameters
section at all — the output contains neither a `Parameters` heading
nor the no-parameters marker. -/
theorem claim_C3_counterexample :
    format_endpoint 3 "/items" "get" (jobj [("parameters", jarr [])]) (jobj []) true =
      .ok "## `GET /items`\n\n---\n\n\n---\n\n" ∧
    isSubstr "No parameters" "## `GET /items`\n\n---\n\n\n---\n\n" = false ∧
    isSubstr "Parameters" "## `GET /items`\n\n---\n\n\n---\n\n" = false := by
  refine ⟨by decide, by decide, by decide⟩

/-- C3 (amended): a present-but-falsy `parameters` value (in
particular the empty list) makes `format_endpoint` behave exactly as
if the key were absent — the section is omitted entirely; the literal
no-parameters marker exists only in `format_parameters`, which emits
it when invoked directly on a falsy parameters value, a call
`format_endpoint` never makes. -/
theorem claim_C3 (fuel : Nat) (p m : String) (fs : JFields) (spec : Json) (il : Bool) (v : Json)
    (hv : fsGet fs "parameters" = some v) (ht : truthy v = false) :
    format_endpoint fuel p m (.obj fs) spec il =
      format_endpoint fuel p m (.obj (removeKey fs "parameters")) spec il ∧
    format_parameters fuel v spec il = .ok "*No parameters*\n\n" := by
  constructor
  · simp only [format_endpoint, edPart, tagsPart, paramsSection, bodySection, responsesSection,
      securitySection, getIfIn, fsGet_removeKey, hv, ht]
    simp
  · simp [format_parameters, ht]

/-- Witness for the amended C3: the concrete empty-parameters
operation renders identically to the same operation without the key,
and `format_parameters` itself yields the marker on the empty list. -/
theorem claim_C3_witness :
    format_endpoint 2 "/x" "get" (Json.obj (JFields.ofList [("parameters", jarr [])]))
        (jobj []) true =
      format_endpoint 2 "/x" "get"
        (Json.obj (removeKey (JFields.ofList [("parameters", jarr [])]) "parameters"))
        (jobj []) true ∧
    format_parameters 2 (jarr []) (jobj []) true = .ok "*No parameters*\n\n" :=
  claim_C3 2 "/x" "get" (JFields.ofList [("parameters", jarr [])]) (jobj []) true (jarr [])
    (by decide) (by decide)

/-- The property bullet line without a required marker. -/
def propLine (ind : Nat) (n : String) : String := indentStr ind ++ "  - **`" ++ n ++ "`**:\n"

/-- The numbered option line of a composition facet. -/
def optLine (ind i : Nat) : String := indentStr ind ++ "  - Option " ++ toString i ++ ":\n"

/-- Two sibling properties each render via a recursive call that
receives the parent call's visited set. -/
theorem props_siblings_same_seen (fuel : Nat) (spec : Json) (ind : Nat) (seen : List String)
    (il : Bool) (n1 : String) (v1 : Json) (n2 : String) (v2 : Json) (out1 out2 : String)
    (h1 : format_schema fuel v1 spec (ind + 2) seen il = .ok out1)
    (h2 : format_schema fuel v2 spec (ind + 2) seen il = .ok out2) :
    format_schema (fuel + 1) (jobj [("properties", jobj [(n1, v1), (n2, v2)])]) spec ind seen il =
      .ok (indentStr ind ++ "- **Properties**:\n" ++
        (propLine ind n1 ++ (out1 ++ (propLine ind n2 ++ out2)))) := by
  rw [show jobj [("properties", jobj [(n1, v1), (n2, v2)])] =
    Json.obj (JFields.ofList [("properties", jobj [(n1, v1), (n2, v2)])]) from rfl]
  rw [format_schema_succ]
  simp only [formatDict, propsPart, renderProps, enumPart, itemsPart, compPart, addPropsPart,
    reqPart, facetLine, constraintsPart, constraintKeys, fsGet, JFields.ofList, jobj, jarr,
    JList.ofList, pyContains, pyIter, pyBoolLike, catE, h1, h2, propLine]
  simp [renderProps, pyContains, JList.toList, catE, h1, h2, propLine, String.join,
    String.append_assoc, String.append_empty, String.empty_append]

/-- Two options of an `allOf` each render via a recursive call that
receives the parent call's visited set. -/
theorem options_siblings_same_seen (fuel : Nat) (spec : Json) (ind : Nat) (seen : List String)
    (il : Bool) (v1 v2 : Json) (out1 out2 : String)
    (h1 : format_schema fuel v1 spec (ind + 2) seen il = .ok out1)
    (h2 : format_schema fuel v2 spec (ind + 2) seen il = .ok out2) :
    format_schema (fuel + 1) (jobj [("allOf", jarr [v1, v2])]) spec ind seen il =
      .ok (indentStr ind ++ "- **allOf**:\n" ++
        (optLine ind 1 ++ (out1 ++ (optLine ind 2 ++ out2)))) := by
  rw [show jobj [("allOf", jarr [v1, v2])] =
    Json.obj (JFields.ofList [("allOf", jarr [v1, v2])]) from rfl]
  rw [format_schema_succ]
  simp only [formatDict, propsPart, renderProps, renderOptions, enumPart, itemsPart, compPart,
    addPropsPart, reqPart, facetLine, constraintsPart, constraintKeys, fsGet, JFields.ofList,
    jobj, jarr, JList.ofList, JList.toList, pyContains, pyIter, pyBoolLike, catE, h1, h2, optLine]
  simp [renderOptions, JList.toList, catE, h1, h2, optLine, String.join,
    String.append_assoc, String.append_empty, String.empty_append]

/-- A property child and an `items` child of the same node each render
via a recursive call that receives the parent call's visited set. -/
theorem props_items_same_seen (fuel : Nat) (spec : Json) (ind : Nat) (seen : List String)
    (il : Bool) (n1 : String) (v1 vI : Json) (out1 outI : String)
    (h1 : format_schema fuel v1 spec (ind + 2) seen il = .ok out1)
    (hI : format_schema fuel vI spec (ind + 1) seen il = .ok outI) :
    format_schema (fuel + 1) (jobj [("properties", jobj [(n1, v1)]), ("items", vI)]) spec ind seen il =
      .ok (indentStr ind ++ "- **Properties**:\n" ++ (propLine ind n1 ++ out1) ++
        (indentStr ind ++ "- **Items**:\n" ++ outI)) := by
  rw [show jobj [("properties", jobj [(n1, v1)]), ("items", vI)] =
    Json.obj (JFields.ofList [("properties", jobj [(n1, v1)]), ("items", vI)]) from rfl]
  rw [format_schema_succ]
  simp only [formatDict, propsPart, renderProps, enumPart, itemsPart, compPart, addPropsPart,
    reqPart, facetLine, constraintsPart, constraintKeys, fsGet, JFields.ofList, jobj, jarr,
    JList.ofList, pyContains, pyIter, pyBoolLike, catE, h1, hI, propLine]
  simp [renderProps, pyContains, JList.toList, catE, h1, hI, propLine, String.join,
    String.append_assoc, String.append_empty, String.empty_append]

/-- C5: every child recursion of a multi-child node (sibling
properties, `allOf` options, and an `items` child next to a property
child) is invoked with the visited set exactly as it stood at the
parent call: each sibling's sub-output is the rendering of that child
at the parent's own visited set, so a reference path entered inside
one sibling branch is never present in the visited set any other
sibling sees. -/
theorem claim_C5 :
    (∀ (fuel : Nat) (spec : Json) (ind : Nat) (seen : List String) (il : Bool)
      (n1 : String) (v1 : Json) (n2 : String) (v2 : Json) (out1 out2 : String),
      format_schema fuel v1 spec (ind + 2) seen il = .ok out1 →
      format_schema fuel v2 spec (ind + 2) seen il = .ok out2 →
      format_schema (fuel + 1) (jobj [("properties", jobj [(n1, v1), (n2, v2)])]) spec ind seen il =
        .ok (indentStr ind ++ "- **Properties**:\n" ++
          (propLine ind n1 ++ (out1 ++ (propLine ind n2 ++ out2))))) ∧
    (∀ (fuel : Nat) (spec : Json) (ind : Nat) (seen : List String) (il : Bool)
      (v1 v2 : Json) (out1 out2 : String),
      format_schema fuel v1 spec (ind + 2) seen il = .ok out1 →
      format_schema fuel v2 spec (ind + 2) seen il = .ok out2 →
      format_schema (fuel + 1) (jobj [("allOf", jarr [v1, v2])]) spec ind seen il =
        .ok (indentStr ind ++ "- **allOf**:\n" ++
          (optLine ind 1 ++ (out1 ++ (optLine ind 2 ++ out2))))) ∧
    (∀ (fuel : Nat) (spec : Json) (ind : Nat) (seen : List String) (il : Bool)
      (n1 : String) (v1 vI : Json) (out1 outI : String),
      format_schema fuel v1 spec (ind + 2) seen il = .ok out1 →
      format_schema fuel vI spec (ind + 1) seen il = .ok outI →
      format_schema (fuel + 1) (jobj [("properties", jobj [(n1, v1)]), ("items", vI)]) spec ind seen il =
        .ok (indentStr ind ++ "- **Properties**:\n" ++ (propLine ind n1 ++ out1) ++
          (indentStr ind ++ "- **Items**:\n" ++ outI))) :=
  ⟨fun fuel spec ind seen il n1 v1 n2 v2 out1 out2 h1 h2 =>
      props_siblings_same_seen fuel spec ind seen il n1 v1 n2 v2 out1 out2 h1 h2,
   fun fuel spec ind seen il v1 v2 out1 out2 h1 h2 =>
      options_siblings_same_seen fuel spec ind seen il v1 v2 out1 out2 h1 h2,
   fun fuel spec ind seen il n1 v1 vI out1 outI h1 hI =>
      props_items_same_seen fuel spec ind seen il n1 v1 vI out1 outI h1 hI⟩

/-- The small document used by the C5 witness: both siblings reference
`#/a`, and both expand fully (neither branch sees the other's visited
path). -/
def wSpec : Json := jobj [("a", jobj [("type", Json.str "string")])]

/-- Witness for C5: in a node with two properties both referencing
`#/a`, both siblings inline the full resolved definition — the second
branch's visited set does not contain the path entered by the first. -/
theorem claim_C5_witness :
    format_schema 3 (jobj [("properties", jobj [("p", refNode "#/a"), ("q", refNode "#/a")])])
        wSpec 0 [] true =
      .ok (indentStr 0 ++ "- **Properties**:\n" ++
        (propLine 0 "p" ++
          ("    - **$ref**: `#/a`\n      **Resolved Definition**:\n      - **Type**: `string`\n" ++
            (propLine 0 "q" ++
              "    - **$ref**: `#/a`\n      **Resolved Definition**:\n      - **Type**: `string`\n")))) :=
  claim_C5.1 2 wSpec 0 [] true "p" (refNode "#/a") "q" (refNode "#/a")
    "    - **$ref**: `#/a`\n      **Resolved Definition**:\n      - **Type**: `string`\n"
    "    - **$ref**: `#/a`\n      **Resolved Definition**:\n      - **Type**: `string`\n"
    (by decide) (by decide)

theorem noRefF_no_ref_key : ∀ fs : JFields, noRefF fs = true → fsGet fs "$ref" = none
  | .nil, _ => rfl
  | .cons k v rest, h => by
    simp only [noRefF, Bool.and_eq_true, decide_eq_true_eq] at h
    obtain ⟨⟨hk, hv⟩, hrest⟩ := h
    simp only [fsGet]
    rw [if_neg hk]
    exact noRefF_no_ref_key rest hrest

theorem noRefF_get : ∀ (fs : JFields) (k : String) (v : Json),
    noRefF fs = true → fsGet fs k = some v → noRef v = true
  | .nil, k, v, _, hg => by simp [fsGet] at hg
  | .cons k0 v0 rest, k, v, h, hg => by
    simp only [noRefF, Bool.and_eq_true, decide_eq_true_eq] at h
    obtain ⟨⟨hk0, hv0⟩, hrest⟩ := h
    simp only [fsGet] at hg
    by_cases he : k0 = k
    · rw [if_pos he] at hg
      cases hg
      exact hv0
    · rw [if_neg he] at hg
      exact noRefF_get rest k v hrest hg

theorem noRefL_mem : ∀ (xs : JList) (x : Json), noRefL xs = true → x ∈ xs.toList → noRef x = true
  | .nil, x, _, hm => by simp [JList.toList] at hm
  | .cons y rest, x, h, hm => by
    simp only [noRefL, Bool.and_eq_true] at h
    simp only [JList.toList, List.mem_cons] at hm
    rcases hm with rfl | hm
    · exact h.1
    · exact noRefL_mem rest x h.2 hm

theorem pyIter_noRef (v : Json) (items : List Json) (hv : noRef v = true)
    (hit : pyIter v = some items) : ∀ x ∈ items, noRef x = true := by
  intro x hx
  cases v with
  | arr xs =>
    simp only [pyIter, Option.some.injEq] at hit
    subst hit
    exact noRefL_mem xs x (by simpa [noRef] using hv) hx
  | str s =>
    simp only [pyIter, Option.some.injEq] at hit
    subst hit
    simp only [List.mem_map] at hx
    obtain ⟨c, _, rfl⟩ := hx
    rfl
  | obj fs =>
    simp only [pyIter, Option.some.injEq] at hit
    subst hit
    simp only [List.mem_map] at hx
    obtain ⟨c, _, rfl⟩ := hx
    rfl
  | null => simp [pyIter] at hit
  | bool b => simp [pyIter] at hit
  | num n => simp [pyIter] at hit

theorem renderProps_seen_congr (rc : Json → Nat → List String → Except RErr String)
    (s1 s2 : List String)
    (H : ∀ v i, noRef v = true → rc v i s1 = rc v i s2) :
    ∀ (props : JFields) (rv : Json) (ind : Nat), noRefF props = true →
    renderProps rc props rv ind s1 = renderProps rc props rv ind s2
  | .nil, rv, ind, _ => rfl
  | .cons name psch rest, rv, ind, h => by
    simp only [noRefF, Bool.and_eq_true, decide_eq_true_eq] at h
    obtain ⟨⟨hn, hp⟩, hrest⟩ := h
    simp only [renderProps]
    rw [H psch (ind + 2) hp, renderProps_seen_congr rc s1 s2 H rest rv ind hrest]

theorem renderOptions_seen_congr (rc : Json → Nat → List String → Except RErr String)
    (s1 s2 : List String)
    (H : ∀ v i, noRef v = true → rc v i s1 = rc v i s2) :
    ∀ (items : List Json) (idx ind : Nat), (∀ x ∈ items, noRef x = true) →
    renderOptions rc items idx ind s1 = renderOptions rc items idx ind s2
  | [], idx, ind, _ => rfl
  | x :: rest, idx, ind, h => by
    simp only [renderOptions]
    rw [H x (ind + 2) (h x (List.mem_cons_self x rest)),
      renderOptions_seen_congr rc s1 s2 H rest (idx + 1) ind
        (fun y hy => h y (List.mem_cons_of_mem x hy))]

theorem noRef_seen_irrel : ∀ (fuel : Nat) (schema spec : Json) (ind : Nat) (il : Bool)
    (seen1 seen2 : List String), noRef schema = true →
    format_schema fuel schema spec ind seen1 il = format_schema fuel schema spec ind seen2 il := by
  intro fuel
  induction fuel with
  | zero => intros; rfl
  | succ fuel ih =>
    intro schema spec ind il seen1 seen2 h
    cases schema with
    | obj fs =>
      rw [format_schema_succ, format_schema_succ]
      have hfs : noRefF fs = true := by simpa [noRef] using h
      have href : fsGet fs "$ref" = none := noRefF_no_ref_key fs hfs
      have H : ∀ v i, noRef v = true →
          format_schema fuel v spec i seen1 il = format_schema fuel v spec i seen2 il :=
        fun v i hv => ih v spec i il seen1 seen2 hv
      have hp : propsPart (fun v i sn => format_schema fuel v spec i sn il) fs ind seen1 =
          propsPart (fun v i sn => format_schema fuel v spec i sn il) fs ind seen2 := by
        simp only [propsPart]
        split
        · rename_i props hpr
          rw [renderProps_seen_congr _ seen1 seen2 H props _ ind
            (by simpa [noRef] using noRefF_get fs "properties" (.obj props) hfs hpr)]
        · rfl
        · rfl
      have hi : itemsPart (fun v i sn => format_schema fuel v spec i sn il) fs ind seen1 =
          itemsPart (fun v i sn => format_schema fuel v spec i sn il) fs ind seen2 := by
        simp only [itemsPart]
        split
        · rename_i v hv
          rw [H v (ind + 1) (noRefF_get fs "items" v hfs hv)]
        · rfl
      have hc : ∀ key, compPart (fun v i sn => format_schema fuel v spec i sn il) fs key ind seen1 =
          compPart (fun v i sn => format_schema fuel v spec i sn il) fs key ind seen2 := by
        intro key
        simp only [compPart]
        split
        · rename_i v hv
          split
          · rename_i items hits
            rw [renderOptions_seen_congr _ seen1 seen2 H items 0 ind
              (pyIter_noRef v items (noRefF_get fs key v hfs hv) hits)]
          · rfl
        · rfl
      have ha : addPropsPart (fun v i sn => format_schema fuel v spec i sn il) fs ind seen1 =
          addPropsPart (fun v i sn => format_schema fuel v spec i sn il) fs ind seen2 := by
        simp only [addPropsPart]
        split
        · rename_i v hv
          split
          · rfl
          · rw [H v (ind + 1) (noRefF_get fs "additionalProperties" v hfs hv)]
        · rfl
      simp only [formatDict, href]
      rw [hp, hi, hc "allOf", hc "anyOf", hc "oneOf", ha]
    | null => rfl
    | bool b => rfl
    | num n => rfl
    | str s => rfl
    | arr xs => rfl

/-- C8: rendering a schema whose subtree contains no `$ref` is
independent of the ambient visited set — any two visited-set arguments
produce the same output, so the result depends only on the node's own
content, the document, the depth, the fuel and the inline flag. -/
theorem claim_C8 (fuel : Nat) (schema spec : Json) (ind : Nat) (il : Bool)
    (seen1 seen2 : List String) (h : noRef schema = true) :
    format_schema fuel schema spec ind seen1 il = format_schema fuel schema spec ind seen2 il :=
  noRef_seen_irrel fuel schema spec ind il seen1 seen2 h

/-- Witness for C8: a `$ref`-free object schema renders identically
under the empty visited set and under a populated one. -/
theorem claim_C8_witness :
    noRef (jobj [("type", Json.str "object"),
      ("properties", jobj [("id", jobj [("type", Json.str "integer")])])]) = true ∧
    format_schema 3 (jobj [("type", Json.str "object"),
        ("properties", jobj [("id", jobj [("type", Json.str "integer")])])]) (jobj []) 0 [] true =
      format_schema 3 (jobj [("type", Json.str "object"),
        ("properties", jobj [("id", jobj [("type", Json.str "integer")])])]) (jobj []) 0
        ["#/components/schemas/User", "#/b"] true :=
  ⟨by decide,
   claim_C8 3 (jobj [("type", Json.str "object"),
      ("properties", jobj [("id", jobj [("type", Json.str "integer")])])]) (jobj []) 0 true []
      ["#/components/schemas/User", "#/b"] (by decide)⟩

theorem ok_ne_err (s : String) (e : RErr) : (Except.ok s : Except RErr String) ≠ .error e := by
  simp

theorem catE_ne (a b : Except RErr String) (e : RErr) (ha : a ≠ .error e) (hb : b ≠ .error e) :
    catE a b ≠ .error e := by
  cases a with
  | error e1 => simpa [catE] using ha
  | ok sa =>
    cases b with
    | error e1 => simpa [catE] using hb
    | ok sb => simp [catE]

theorem wfF_get : ∀ (fs : JFields) (k : String) (v : Json),
    wfF fs = true → fsGet fs k = some v → wf v = true
  | .nil, k, v, _, hg => by simp [fsGet] at hg
  | .cons k0 v0 rest, k, v, h, hg => by
    simp only [wfF, Bool.and_eq_true] at h
    simp only [fsGet] at hg
    by_cases he : k0 = k
    · rw [if_pos he] at hg
      cases hg
      exact h.1
    · rw [if_neg he] at hg
      exact wfF_get rest k v h.2 hg

theorem wfL_mem : ∀ (xs : JList) (x : Json), wfL xs = true → x ∈ xs.toList → wf x = true
  | .nil, x, _, hm => by simp [JList.toList] at hm
  | .cons y rest, x, h, hm => by
    simp only [wfL, Bool.and_eq_true] at h
    simp only [JList.toList, List.mem_cons] at hm
    rcases hm with rfl | hm
    · exact h.1
    · exact wfL_mem rest x h.2 hm

theorem pyIter_wf (v : Json) (items : List Json) (hv : wf v = true)
    (hit : pyIter v = some items) : ∀ x ∈ items, wf x = true := by
  intro x hx
  cases v with
  | arr xs =>
    simp only [pyIter, Option.some.injEq] at hit
    subst hit
    exact wfL_mem xs x (by simpa [wf] using hv) hx
  | str s =>
    simp only [pyIter, Option.some.injEq] at hit
    subst hit
    simp only [List.mem_map] at hx
    obtain ⟨c, _, rfl⟩ := hx
    rfl
  | obj fs =>
    simp only [pyIter, Option.some.injEq] at hit
    subst hit
    simp only [List.mem_map] at hx
    obtain ⟨c, _, rfl⟩ := hx
    rfl
  | null => simp [pyIter] at hit
  | bool b => simp [pyIter] at hit
  | num n => simp [pyIter] at hit

theorem walkPath_wf : ∀ (ks : List String) (cur : Json), wf cur = true →
    wf (walkPath ks cur) = true
  | [], cur, h => h
  | p :: ps, cur, h => by
    cases cur with
    | obj fs =>
      simp only [walkPath]
      have h2 : wfF fs = true := by
        simp only [wf, Bool.and_eq_true] at h
        exact h.2
      cases hg : fsGet fs p with
      | some v => exact walkPath_wf ps v (wfF_get fs p v h2 hg)
      | none => rfl
    | null => rfl
    | bool b => rfl
    | num n => rfl
    | str s => rfl
    | arr xs => rfl

theorem resolve_ref_wf (r : String) (spec : Json) (h : wf spec = true) :
    wf (resolve_ref r spec) = true := by
  unfold resolve_ref
  cases refParts r with
  | some parts => exact walkPath_wf parts spec h
  | none => rfl

theorem iterOk_pyContains (v : Json) (name : String) (h : iterOk v = true) :
    ∃ b, pyContains v name = some b := by
  cases v <;> simp [iterOk] at h <;> exact ⟨_, rfl⟩

theorem iterOk_pyIter (v : Json) (h : iterOk v = true) :
    ∃ items, pyIter v = some items := by
  cases v <;> simp [iterOk] at h <;> exact ⟨_, rfl⟩

theorem renderProps_ne_exn (rc : Json → Nat → List String → Except RErr String)
    (seen : List String) (H : ∀ v i, wf v = true → rc v i seen ≠ .error .exn) :
    ∀ (props : JFields) (rv : Json) (ind : Nat), iterOk rv = true → wfF props = true →
    renderProps rc props rv ind seen ≠ .error .exn
  | .nil, rv, ind, _, _ => by simp [renderProps]
  | .cons name psch rest, rv, ind, hrv, h => by
    simp only [wfF, Bool.and_eq_true] at h
    obtain ⟨b, hb⟩ := iterOk_pyContains rv name hrv
    simp only [renderProps, hb]
    exact catE_ne _ _ _ (ok_ne_err _ _)
      (catE_ne _ _ _ (H psch (ind + 2) h.1)
        (renderProps_ne_exn rc seen H rest rv ind hrv h.2))

theorem renderOptions_ne_exn (rc : Json → Nat → List String → Except RErr String)
    (seen : List String) (H : ∀ v i, wf v = true → rc v i seen ≠ .error .exn) :
    ∀ (items : List Json) (idx ind : Nat), (∀ x ∈ items, wf x = true) →
    renderOptions rc items idx ind seen ≠ .error .exn
  | [], idx, ind, _ => by simp [renderOptions]
  | x :: rest, idx, ind, h => by
    simp only [renderOptions]
    exact catE_ne _ _ _ (ok_ne_err _ _)
      (catE_ne _ _ _ (H x (ind + 2) (h x (List.mem_cons_self x rest)))
        (renderOptions_ne_exn rc seen H rest (idx + 1) ind
          (fun y hy => h y (List.mem_cons_of_mem x hy))))

theorem wf_no_exn : ∀ (fuel : Nat) (schema spec : Json) (ind : Nat) (seen : List String)
    (il : Bool), wf schema = true → wf spec = true →
    format_schema fuel schema spec ind seen il ≠ .error .exn := by
  intro fuel
  induction fuel with
  | zero => intro schema spec ind seen il _ _ h; exact RErr.noConfusion (Except.error.inj h)
  | succ fuel ih =>
    intro schema spec ind seen il hs hspec
    cases schema with
    | obj fs =>
      rw [format_schema_succ]
      have hloc : localOk fs = true := by
        simp only [wf, Bool.and_eq_true] at hs
        exact hs.1
      have hwff : wfF fs = true := by
        simp only [wf, Bool.and_eq_true] at hs
        exact hs.2
      have H : ∀ v i, wf v = true →
          format_schema fuel v spec i (seen) il ≠ .error .exn :=
        fun v i hv => ih v spec i seen il hv hspec
      cases href : fsGet fs "$ref" with
      | some refv =>
        have h1 := hloc
        simp only [localOk, href] at h1
        cases refv with
        | str r =>
          have hrec := ih (resolve_ref r spec) spec (ind + 1) (r :: seen) il
            (resolve_ref_wf r spec hspec) hspec
          intro hcontra
          simp only [formatDict, href] at hcontra
          split at hcontra
          · simp at hcontra
          · split at hcontra
            · split at hcontra
              · split at hcontra
                · simp at hcontra
                · rename_i e heq
                  rw [Except.error.inj hcontra] at heq
                  exact hrec heq
              · simp at hcontra
            · simp at hcontra
        | null => simp at h1
        | bool b => simp at h1
        | num n => simp at h1
        | arr xs => simp at h1
        | obj fs2 => simp at h1
      | none =>
        have h1 := hloc
        simp only [localOk, href, Bool.and_eq_true] at h1
        obtain ⟨⟨⟨⟨⟨henum, hprops⟩, hreq⟩, hallOf⟩, hanyOf⟩, honeOf⟩ := h1
        simp only [formatDict, href]
        apply catE_ne _ _ _ (ok_ne_err _ _)
        apply catE_ne _ _ _ (ok_ne_err _ _)
        apply catE_ne _ _ _ (ok_ne_err _ _)
        apply catE_ne
        · -- enumPart
          simp only [enumPart]
          cases he : fsGet fs "enum" with
          | some v =>
            rw [he] at henum
            obtain ⟨items, hits⟩ := iterOk_pyIter v henum
            simp [hits]
          | none => simp
        apply catE_ne _ _ _ (ok_ne_err _ _)
        apply catE_ne _ _ _ (ok_ne_err _ _)
        apply catE_ne
        · -- propsPart
          simp only [propsPart]
          cases hp : fsGet fs "properties" with
          | some v =>
            rw [hp] at hprops
            cases v with
            | obj props =>
              apply catE_ne _ _ _ (ok_ne_err _ _)
              have hwfp : wfF props = true := by
                have := wfF_get fs "properties" (.obj props) hwff hp
                simp only [wf, Bool.and_eq_true] at this
                exact this.2
              have hrv : iterOk ((fsGet fs "required").getD (jarr [])) = true := by
                cases hr : fsGet fs "required" with
                | some rv =>
                  rw [hr] at hreq
                  simpa using hreq
                | none => rfl
              exact renderProps_ne_exn _ seen H props _ ind hrv hwfp
            | null => simp at hprops
            | bool b => simp at hprops
            | num n => simp at hprops
            | str s => simp at hprops
            | arr xs => simp at hprops
          | none => simp
        apply catE_ne
        · -- itemsPart
          simp only [itemsPart]
          cases hit : fsGet fs "items" with
          | some v => exact catE_ne _ _ _ (ok_ne_err _ _) (H v (ind + 1) (wfF_get fs "items" v hwff hit))
          | none => simp
        apply catE_ne
        · -- allOf
          simp only [compPart]
          cases ha : fsGet fs "allOf" with
          | some v =>
            rw [ha] at hallOf
            obtain ⟨items, hits⟩ := iterOk_pyIter v hallOf
            simp only [hits]
            exact catE_ne _ _ _ (ok_ne_err _ _)
              (renderOptions_ne_exn _ seen H items 0 ind
                (pyIter_wf v items (wfF_get fs "allOf" v hwff ha) hits))
          | none => simp
        apply catE_ne
        · -- anyOf
          simp only [compPart]
          cases ha : fsGet fs "anyOf" with
          | some v =>
            rw [ha] at hanyOf
            obtain ⟨items, hits⟩ := iterOk_pyIter v hanyOf
            simp only [hits]
            exact catE_ne _ _ _ (ok_ne_err _ _)
              (renderOptions_ne_exn _ seen H items 0 ind
                (pyIter_wf v items (wfF_get fs "anyOf" v hwff ha) hits))
          | none => simp
        apply catE_ne
        · -- oneOf
          simp only [compPart]
          cases ha : fsGet fs "oneOf" with
          | some v =>
            rw [ha] at honeOf
            obtain ⟨items, hits⟩ := iterOk_pyIter v honeOf
            simp only [hits]
            exact catE_ne _ _ _ (ok_ne_err _ _)
              (renderOptions_ne_exn _ seen H items 0 ind
                (pyIter_wf v items (wfF_get fs "oneOf" v hwff ha) hits))
          | none => simp
        apply catE_ne
        · -- addPropsPart
          simp only [addPropsPart]
          cases ha : fsGet fs "additionalProperties" with
          | some v =>
            by_cases hb : pyBoolLike v = true
            · simp [hb]
            · simp only [Bool.not_eq_true] at hb
              simp only [hb, Bool.false_eq_true, if_false]
              exact catE_ne _ _ _ (ok_ne_err _ _)
                (H v (ind + 1) (wfF_get fs "additionalProperties" v hwff ha))
          | none => simp
        apply catE_ne
        · -- reqPart
          simp only [reqPart]
          cases hr : fsGet fs "required" with
          | some v =>
            rw [hr] at hreq
            by_cases hto : fsGet fs "type" = some (Json.str "object")
            · simp [hto]
            · simp only [if_neg hto]
              obtain ⟨items, hits⟩ := iterOk_pyIter v hreq
              simp [hits]
          | none => simp
        apply catE_ne _ _ _ (ok_ne_err _ _)
        apply catE_ne _ _ _ (ok_ne_err _ _)
        exact ok_ne_err _ _
    | null => simp [format_schema]
    | bool b => simp [format_schema]
    | num n => simp [format_schema]
    | str s => simp [format_schema]
    | arr xs => simp [format_schema]

/-- Counterexample to C4 as stated: dict schemas with a non-iterable
`enum`, a non-mapping `properties`, or a non-iterable `required` (on a
non-object type) make the renderer raise a `TypeError` /
`AttributeError` instead of returning a string. -/
theorem claim_C4_counterexample :
    format_schema 5 (jobj [("enum", Json.num 0)]) (jobj []) 0 [] true = .error .exn ∧
    format_schema 5 (jobj [("properties", Json.num 5)]) (jobj []) 0 [] true = .error .exn ∧
    format_schema 5 (jobj [("required", Json.num 3), ("type", Json.str "string")]) (jobj [])
      0 [] true = .error .exn := by
  refine ⟨by decide, by decide, by decide⟩

/-- C4 (amended): non-dict schema values (scalars and arrays, however
ill-shaped inside) always render as a single literal bullet without
raising, and for schemas and documents whose every object subtree is
well-shaped (string `$ref`; iterable `enum`, `required`,
`allOf`/`anyOf`/`oneOf`; mapping `properties`) the renderer never
raises: reference-resolution failure only ever degrades to the inline
marker.  Ill-shaped facet values (a non-mapping under `properties`, a
non-iterable under `enum`/`required`/`allOf`) do raise. -/
theorem claim_C4 :
    (∀ (v : Json) (fuel : Nat) (spec : Json) (ind : Nat) (seen : List String) (il : Bool),
      (∀ fs, v ≠ Json.obj fs) →
      format_schema (fuel + 1) v spec ind seen il =
        .ok (indentStr ind ++ "- `" ++ pyStr v ++ "`\n")) ∧
    (∀ (fuel : Nat) (schema spec : Json) (ind : Nat) (seen : List String) (il : Bool),
      wf schema = true → wf spec = true →
      format_schema fuel schema spec ind seen il ≠ .error .exn) := by
  constructor
  · intro v fuel spec ind seen il h
    cases v with
    | obj fs => exact absurd rfl (h fs)
    | null => rfl
    | bool b => rfl
    | num n => rfl
    | str s => rfl
    | arr xs => rfl
  · intro fuel schema spec ind seen il hs hspec
    exact wf_no_exn fuel schema spec ind seen il hs hspec

/-- Witness for the amended C4: a bare number renders as a literal
bullet, and a well-shaped schema/document pair never raises. -/
theorem claim_C4_witness :
    format_schema 1 (Json.num 42) (jobj []) 0 [] true =
      .ok (indentStr 0 ++ "- `" ++ pyStr (Json.num 42) ++ "`\n") ∧
    (wf (jobj [("type", Json.str "string")]) = true ∧ wf (jobj []) = true) ∧
    format_schema 3 (jobj [("type", Json.str "string")]) (jobj []) 0 [] true ≠ .error .exn :=
  ⟨claim_C4.1 (Json.num 42) 0 (jobj []) 0 [] true (fun fs h => Json.noConfusion h),
   ⟨by decide, by decide⟩,
   claim_C4.2 3 (jobj [("type", Json.str "string")]) (jobj []) 0 [] true (by decide) (by decide)⟩

theorem sizeJ_pos : ∀ v : Json, 1 ≤ sizeJ v
  | .null => le_refl 1
  | .bool _ => le_refl 1
  | .num _ => le_refl 1
  | .str _ => le_refl 1
  | .arr xs => by simp [sizeJ]
  | .obj fs => by simp [sizeJ]

theorem fsGet_sizeF : ∀ (fs : JFields) (k : String) (v : Json),
    fsGet fs k = some v → 1 + sizeJ v ≤ sizeF fs
  | .nil, k, v, hg => by simp [fsGet] at hg
  | .cons k0 v0 rest, k, v, hg => by
    simp only [fsGet] at hg
    by_cases he : k0 = k
    · rw [if_pos he] at hg
      cases hg
      simp only [sizeF]
      omega
    · rw [if_neg he] at hg
      have := fsGet_sizeF rest k v hg
      simp only [sizeF]
      omega

theorem fsGet_lt (fs : JFields) (k : String) (v : Json) (hg : fsGet fs k = some v) :
    sizeJ v < sizeJ (Json.obj fs) := by
  have := fsGet_sizeF fs k v hg
  simp only [sizeJ]
  omega

theorem vals_sizeF : ∀ (fs : JFields) (v : Json), v ∈ fs.vals → 1 + sizeJ v ≤ sizeF fs
  | .nil, v, hm => by simp [JFields.vals] at hm
  | .cons k0 v0 rest, v, hm => by
    simp only [JFields.vals, List.mem_cons] at hm
    rcases hm with rfl | hm
    · simp only [sizeF]; omega
    · have := vals_sizeF rest v hm
      simp only [sizeF]
      omega

theorem mem_toList_sizeL : ∀ (xs : JList) (x : Json), x ∈ xs.toList → 1 + sizeJ x ≤ sizeL xs
  | .nil, x, hm => by simp [JList.toList] at hm
  | .cons y rest, x, hm => by
    simp only [JList.toList, List.mem_cons] at hm
    rcases hm with rfl | hm
    · simp only [sizeL]; omega
    · have := mem_toList_sizeL rest x hm
      simp only [sizeL]
      omega

theorem pyIter_size (v : Json) (items : List Json) (hit : pyIter v = some items) :
    ∀ x ∈ items, sizeJ x ≤ sizeJ v := by
  intro x hx
  cases v with
  | arr xs =>
    simp only [pyIter, Option.some.injEq] at hit
    subst hit
    have := mem_toList_sizeL xs x hx
    simp only [sizeJ]
    omega
  | str s =>
    simp only [pyIter, Option.some.injEq] at hit
    subst hit
    simp only [List.mem_map] at hx
    obtain ⟨c, _, rfl⟩ := hx
    simp [sizeJ]
  | obj fs =>
    simp only [pyIter, Option.some.injEq] at hit
    subst hit
    simp only [List.mem_map] at hx
    obtain ⟨c, _, rfl⟩ := hx
    have := sizeJ_pos (Json.obj fs)
    simp only [sizeJ]
    omega
  | null => simp [pyIter] at hit
  | bool b => simp [pyIter] at hit
  | num n => simp [pyIter] at hit

theorem walkPath_size : ∀ (ks : List String) (cur : Json), sizeJ (walkPath ks cur) ≤ sizeJ cur
  | [], cur => le_refl _
  | p :: ps, cur => by
    cases cur with
    | obj fs =>
      simp only [walkPath]
      cases hg : fsGet fs p with
      | some v =>
        show sizeJ (walkPath ps v) ≤ sizeJ (Json.obj fs)
        have h1 := walkPath_size ps v
        have h2 := fsGet_lt fs p v hg
        omega
      | none =>
        show sizeJ Json.null ≤ sizeJ (Json.obj fs)
        have := sizeJ_pos (Json.obj fs)
        simp [sizeJ]
    | null => exact le_refl _
    | bool b => exact le_refl _
    | num n => exact le_refl _
    | str s => exact le_refl _
    | arr xs =>
      show sizeJ Json.null ≤ sizeJ (Json.arr xs)
      have := sizeJ_pos (Json.arr xs)
      simp [sizeJ]

theorem resolve_ref_size (r : String) (spec : Json) :
    sizeJ (resolve_ref r spec) ≤ sizeJ spec := by
  unfold resolve_ref
  cases refParts r with
  | some parts => exact walkPath_size parts spec
  | none => exact sizeJ_pos spec

theorem nil_mem_keySeqs : ∀ cur : Json, [] ∈ keySeqs cur
  | .null => List.mem_singleton.2 rfl
  | .bool _ => List.mem_singleton.2 rfl
  | .num _ => List.mem_singleton.2 rfl
  | .str _ => List.mem_singleton.2 rfl
  | .arr _ => List.mem_singleton.2 rfl
  | .obj fs => by simp [keySeqs]

theorem keySeqsF_cons_mem : ∀ (fs : JFields) (p : String) (v : Json) (ks : List String),
    fsGet fs p = some v → ks ∈ keySeqs v → p :: ks ∈ keySeqsF fs
  | .nil, p, v, ks, hg, _ => by simp [fsGet] at hg
  | .cons k0 v0 rest, p, v, ks, hg, hm => by
    simp only [fsGet] at hg
    simp only [keySeqsF, List.mem_append, List.mem_map]
    by_cases he : k0 = p
    · rw [if_pos he] at hg
      cases hg
      subst he
      exact Or.inl ⟨ks, hm, rfl⟩
    · rw [if_neg he] at hg
      exact Or.inr (keySeqsF_cons_mem rest p v ks hg hm)

theorem walkPath_keySeqs : ∀ (ks : List String) (cur : Json),
    truthy (walkPath ks cur) = true → ks ∈ keySeqs cur
  | [], cur, _ => nil_mem_keySeqs cur
  | p :: ps, cur, ht => by
    cases cur with
    | obj fs =>
      simp only [walkPath] at ht
      cases hg : fsGet fs p with
      | some v =>
        rw [hg] at ht
        have := walkPath_keySeqs ps v ht
        simp only [keySeqs, List.mem_cons]
        exact Or.inr (keySeqsF_cons_mem fs p v ps hg this)
      | none =>
        rw [hg] at ht
        simp [truthy] at ht
    | null => simp [walkPath, truthy] at ht
    | bool b => simp [walkPath, truthy] at ht
    | num n => simp [walkPath, truthy] at ht
    | str s => simp [walkPath, truthy] at ht
    | arr xs => simp [walkPath, truthy] at ht

theorem splitSlashAux_ne_nil : ∀ (cs acc : List Char), splitSlashAux cs acc ≠ []
  | [], acc => by simp [splitSlashAux]
  | c :: cs, acc => by
    simp only [splitSlashAux]
    split
    · simp
    · exact splitSlashAux_ne_nil cs (c :: acc)

theorem joinParts_splitSlashAux : ∀ (cs acc : List Char),
    joinParts (splitSlashAux cs acc) = acc.reverse ++ cs
  | [], acc => by simp [splitSlashAux, joinParts]
  | c :: cs, acc => by
    simp only [splitSlashAux]
    by_cases hc : c = '/'
    · rw [if_pos hc]
      obtain ⟨q, rest, heq⟩ := List.exists_cons_of_ne_nil (splitSlashAux_ne_nil cs [])
      rw [heq]
      have ih := joinParts_splitSlashAux cs []
      rw [heq] at ih
      simp only [joinParts, List.reverse_nil, List.nil_append] at ih
      show (String.mk acc.reverse).toList ++ '/' :: joinParts (q :: rest) = acc.reverse ++ c :: cs
      rw [ih, hc]
      rfl
    · rw [if_neg hc]
      have ih := joinParts_splitSlashAux cs (c :: acc)
      rw [ih]
      simp

theorem mk_toList (s : String) : String.mk s.toList = s := rfl

theorem resolve_truthy_mem (r : String) (spec : Json)
    (ht : truthy (resolve_ref r spec) = true) : r ∈ pathStrings spec := by
  unfold resolve_ref at ht
  cases h : refParts r with
  | some parts =>
    rw [h] at ht
    have hks : parts ∈ keySeqs spec := walkPath_keySeqs parts spec ht
    unfold refParts at h
    split at h
    · rename_i rest heq
      have hparts : parts = splitSlashAux rest [] := by
        cases h
        rfl
      have hcanon : canon parts = r := by
        unfold canon
        rw [hparts, joinParts_splitSlashAux]
        simp only [List.reverse_nil, List.nil_append]
        conv_rhs => rw [← mk_toList r]
        rw [heq]
      rw [← hcanon]
      exact List.mem_map_of_mem canon hks
    · exact Option.noConfusion h
  | none =>
    rw [h] at ht
    simp [truthy] at ht

theorem filter_length_lt {α : Type} (p q : α → Bool) (h : ∀ a, p a = true → q a = true) :
    ∀ (l : List α) (x : α), x ∈ l → q x = true → p x = false →
    (l.filter p).length < (l.filter q).length
  | [], x, hx, _, _ => absurd hx (List.not_mem_nil x)
  | y :: l, x, hx, hq, hp => by
    rcases List.mem_cons.1 hx with rfl | hx2
    · rw [List.filter_cons_of_neg (by simp [hp]), List.filter_cons_of_pos hq]
      have := (List.monotone_filter_right l h).length_le
      simpa [List.length_cons] using Nat.lt_succ_of_le this
    · by_cases hpy : p y = true
      · rw [List.filter_cons_of_pos hpy, List.filter_cons_of_pos (h y hpy)]
        simpa using filter_length_lt p q h l x hx2 hq hp
      · rw [List.filter_cons_of_neg (by simp [hpy])]
        have hlt := filter_length_lt p q h l x hx2 hq hp
        by_cases hqy : q y = true
        · rw [List.filter_cons_of_pos hqy]
          simp only [List.length_cons]
          omega
        · rw [List.filter_cons_of_neg (by simp [hqy])]
          exact hlt

theorem budget_lt (spec : Json) (r : String) (seen : List String)
    (hmem : r ∈ pathStrings spec) (hfresh : r ∉ seen) :
    budget spec (r :: seen) < budget spec seen := by
  unfold budget
  apply filter_length_lt
  · intro a ha
    simp only [Bool.not_eq_true', List.contains_eq_any_beq, List.any_cons,
      Bool.or_eq_false_iff] at ha
    simp only [Bool.not_eq_true', List.contains_eq_any_beq]
    exact ha.2
  · exact List.mem_dedup.2 hmem
  · simp only [Bool.not_eq_true', List.contains_eq_any_beq]
    simp
    exact fun x hx h => hfresh (h ▸ hx)
  · simp [List.contains_eq_any_beq]

theorem vals_lt (props : JFields) (v : Json) (hv : v ∈ props.vals) :
    sizeJ v < sizeJ (Json.obj props) := by
  have := vals_sizeF props v hv
  simp only [sizeJ]
  omega

theorem renderProps_ne_fuel (rc : Json → Nat → List String → Except RErr String)
    (seen : List String) :
    ∀ (props : JFields) (rv : Json) (ind : Nat),
    (∀ v, v ∈ props.vals → ∀ i, rc v i seen ≠ .error .outOfFuel) →
    renderProps rc props rv ind seen ≠ .error .outOfFuel
  | .nil, rv, ind, _ => by simp [renderProps]
  | .cons name psch rest, rv, ind, H => by
    simp only [renderProps]
    cases hb : pyContains rv name with
    | none => simp
    | some b =>
      exact catE_ne _ _ _ (ok_ne_err _ _)
        (catE_ne _ _ _ (H psch (by simp [JFields.vals]) (ind + 2))
          (renderProps_ne_fuel rc seen rest rv ind
            (fun v hv i => H v (by simp [JFields.vals, hv]) i)))

theorem renderOptions_ne_fuel (rc : Json → Nat → List String → Except RErr String)
    (seen : List String) :
    ∀ (items : List Json) (idx ind : Nat),
    (∀ x ∈ items, ∀ i, rc x i seen ≠ .error .outOfFuel) →
    renderOptions rc items idx ind seen ≠ .error .outOfFuel
  | [], idx, ind, _ => by simp [renderOptions]
  | x :: rest, idx, ind, H => by
    simp only [renderOptions]
    exact catE_ne _ _ _ (ok_ne_err _ _)
      (catE_ne _ _ _ (H x (List.mem_cons_self x rest) (ind + 2))
        (renderOptions_ne_fuel rc seen rest (idx + 1) ind
          (fun y hy i => H y (List.mem_cons_of_mem x hy) i)))

theorem fuel_sufficient : ∀ (fuel : Nat) (schema spec : Json) (ind : Nat) (seen : List String)
    (il : Bool), fuelBound schema spec seen ≤ fuel →
    format_schema fuel schema spec ind seen il ≠ .error .outOfFuel := by
  intro fuel
  induction fuel with
  | zero =>
    intro schema spec ind seen il hb
    exfalso
    have h1 := sizeJ_pos schema
    unfold fuelBound at hb
    omega
  | succ fuel ih =>
    intro schema spec ind seen il hb
    cases schema with
    | obj fs =>
      rw [format_schema_succ]
      have Hchild : ∀ (c : Json) (i : Nat), sizeJ c < sizeJ (Json.obj fs) →
          format_schema fuel c spec i seen il ≠ .error .outOfFuel := by
        intro c i hc
        apply ih
        unfold fuelBound at hb ⊢
        omega
      cases href : fsGet fs "$ref" with
      | some refv =>
        cases refv with
        | str r =>
          intro hcontra
          simp only [formatDict, href] at hcontra
          split at hcontra
          · simp at hcontra
          · rename_i hmem
            split at hcontra
            · split at hcontra
              · rename_i ht
                split at hcontra
                · simp at hcontra
                · rename_i e heq
                  rw [Except.error.inj hcontra] at heq
                  have hmem2 : r ∉ seen := by simpa using hmem
                  have hrec : fuelBound (resolve_ref r spec) spec (r :: seen) ≤ fuel := by
                    have hmemP := resolve_truthy_mem r spec ht
                    have hBlt := budget_lt spec r seen hmemP hmem2
                    have hsz := resolve_ref_size r spec
                    have hS := sizeJ_pos (Json.obj fs)
                    unfold fuelBound at hb ⊢
                    have hY : budget spec (r :: seen) * (sizeJ spec + 1) ≤
                        (budget spec seen - 1) * (sizeJ spec + 1) :=
                      Nat.mul_le_mul_right _ (by omega)
                    have hX : (budget spec seen - 1) * (sizeJ spec + 1) + (sizeJ spec + 1) =
                        budget spec seen * (sizeJ spec + 1) := by
                      have h2 : budget spec seen - 1 + 1 = budget spec seen := by omega
                      calc (budget spec seen - 1) * (sizeJ spec + 1) + (sizeJ spec + 1)
                          = (budget spec seen - 1 + 1) * (sizeJ spec + 1) := by
                            rw [Nat.succ_mul]
                        _ = budget spec seen * (sizeJ spec + 1) := by rw [h2]
                    omega
                  exact ih (resolve_ref r spec) spec (ind + 1) (r :: seen) il hrec heq
              · simp at hcontra
            · simp at hcontra
        | null =>
          intro hcontra
          simp only [formatDict, href] at hcontra
          split at hcontra <;> simp at hcontra
        | bool b =>
          intro hcontra
          simp only [formatDict, href] at hcontra
          split at hcontra <;> simp at hcontra
        | num n =>
          intro hcontra
          simp only [formatDict, href] at hcontra
          split at hcontra <;> simp at hcontra
        | arr xs =>
          intro hcontra
          simp only [formatDict, href] at hcontra
          simp at hcontra
        | obj fs2 =>
          intro hcontra
          simp only [formatDict, href] at hcontra
          simp at hcontra
      | none =>
        simp only [formatDict, href]
        apply catE_ne _ _ _ (ok_ne_err _ _)
        apply catE_ne _ _ _ (ok_ne_err _ _)
        apply catE_ne _ _ _ (ok_ne_err _ _)
        apply catE_ne
        · simp only [enumPart]
          cases he : fsGet fs "enum" with
          | some v =>
            cases hi : pyIter v with
            | some items => simp [hi]
            | none => simp [hi]
          | none => simp
        apply catE_ne _ _ _ (ok_ne_err _ _)
        apply catE_ne _ _ _ (ok_ne_err _ _)
        apply catE_ne
        · simp only [propsPart]
          cases hp : fsGet fs "properties" with
          | some v =>
            cases v with
            | obj props =>
              apply catE_ne _ _ _ (ok_ne_err _ _)
              apply renderProps_ne_fuel
              intro c hc i
              exact Hchild c i (lt_trans (vals_lt props c hc) (fsGet_lt fs "properties" _ hp))
            | null => simp
            | bool b => simp
            | num n => simp
            | str s => simp
            | arr xs => simp
          | none => simp
        apply catE_ne
        · simp only [itemsPart]
          cases hit : fsGet fs "items" with
          | some v =>
            exact catE_ne _ _ _ (ok_ne_err _ _) (Hchild v (ind + 1) (fsGet_lt fs "items" v hit))
          | none => simp
        apply catE_ne
        · simp only [compPart]
          cases ha : fsGet fs "allOf" with
          | some v =>
            cases hi : pyIter v with
            | some items =>
              simp only [hi]
              apply catE_ne _ _ _ (ok_ne_err _ _)
              apply renderOptions_ne_fuel
              intro x hx i
              exact Hchild x i
                (lt_of_le_of_lt (pyIter_size v items hi x hx) (fsGet_lt fs "allOf" v ha))
            | none => simp [hi]
          | none => simp
        apply catE_ne
        · simp only [compPart]
          cases ha : fsGet fs "anyOf" with
          | some v =>
            cases hi : pyIter v with
            | some items =>
              simp only [hi]
              apply catE_ne _ _ _ (ok_ne_err _ _)
              apply renderOptions_ne_fuel
              intro x hx i
              exact Hchild x i
                (lt_of_le_of_lt (pyIter_size v items hi x hx) (fsGet_lt fs "anyOf" v ha))
            | none => simp [hi]
          | none => simp
        apply catE_ne
        · simp only [compPart]
          cases ha : fsGet fs "oneOf" with
          | some v =>
            cases hi : pyIter v with
            | some items =>
              simp only [hi]
              apply catE_ne _ _ _ (ok_ne_err _ _)
              apply renderOptions_ne_fuel
              intro x hx i
              exact Hchild x i
                (lt_of_le_of_lt (pyIter_size v items hi x hx) (fsGet_lt fs "oneOf" v ha))
            | none => simp [hi]
          | none => simp
        apply catE_ne
        · simp only [addPropsPart]
          cases ha : fsGet fs "additionalProperties" with
          | some v =>
            by_cases hbl : pyBoolLike v = true
            · simp [hbl]
            · simp only [Bool.not_eq_true] at hbl
              simp only [hbl, Bool.false_eq_true, if_false]
              exact catE_ne _ _ _ (ok_ne_err _ _)
                (Hchild v (ind + 1) (fsGet_lt fs "additionalProperties" v ha))
          | none => simp
        apply catE_ne
        · simp only [reqPart]
          cases hr : fsGet fs "required" with
          | some v =>
            by_cases hto : fsGet fs "type" = some (Json.str "object")
            · simp [hto]
            · simp only [if_neg hto]
              cases hi : pyIter v with
              | some items => simp [hi]
              | none => simp [hi]
          | none => simp
        apply catE_ne _ _ _ (ok_ne_err _ _)
        apply catE_ne _ _ _ (ok_ne_err _ _)
        exact ok_ne_err _ _
    | null => simp [format_schema]
    | bool b => simp [format_schema]
    | num n => simp [format_schema]
    | str s => simp [format_schema]
    | arr xs => simp [format_schema]

/-- C10: `format_schema` terminates with no explicit depth cap: the
computable fuel amount `fuelBound` — the schema size plus one full
document size per reference path of the document not yet on the
visited set — is always sufficient, because every inline `$ref`
expansion strictly shrinks the set of expandable reference paths
(which is finite, bounded by the document's key sequences) and every
other recursion descends into a strictly smaller subtree. -/
theorem claim_C10 (fuel : Nat) (schema spec : Json) (ind : Nat) (seen : List String) (il : Bool)
    (h : fuelBound schema spec seen ≤ fuel) :
    format_schema fuel schema spec ind seen il ≠ .error .outOfFuel :=
  fuel_sufficient fuel schema spec ind seen il h

/-- Witness for C10: the computed bound for a concrete reference
schema against a concrete document keeps the renderer clear of fuel
exhaustion. -/
theorem claim_C10_witness :
    fuelBound (refNode "#/a") wSpec [] ≤ 21 ∧
    format_schema 21 (refNode "#/a") wSpec 0 [] true ≠ .error .outOfFuel :=
  ⟨by decide, claim_C10 21 (refNode "#/a") wSpec 0 [] true (by decide)⟩

theorem catLookup_addEntry : ∀ (cats : List (Json × List Entry)) (t : Json) (e : Entry) (u : Json),
    catLookup (addEntry cats t e) u = catLookup cats u ++ (if t = u then [e] else []) := by
  intro cats t e u
  induction cats with
  | nil =>
    simp only [addEntry, catLookup]
    by_cases h : t = u
    · simp [h]
    · simp [h, fun hh => h hh]
  | cons p rest ih =>
    obtain ⟨w, l⟩ := p
    simp only [addEntry]
    by_cases hw : w = t
    · simp only [if_pos hw, catLookup]
      by_cases hu : w = u
      · rw [if_pos hu, if_pos hu, if_pos (hw ▸ hu)]
      · rw [if_neg hu, if_neg hu, if_neg (fun h => hu (hw.trans h)), List.append_nil]
    · simp only [if_neg hw, catLookup]
      by_cases hu : w = u
      · rw [if_pos hu, if_pos hu, if_neg (fun h => hw (hu.trans h.symm)), List.append_nil]
      · rw [if_neg hu, if_neg hu, ih]

theorem addTags_spec : ∀ (ts : List Json) (e : Entry) (l : List (Json × Entry))
    (cats : List (Json × List Entry)), tagPairs ts e = .ok l →
    ∃ cats2, addTags cats ts e = .ok cats2 ∧
      ∀ u, catLookup cats2 u = catLookup cats u ++ (l.filter (fun p => p.1 == u)).map Prod.snd
  | [], e, l, cats, h => by
    simp only [tagPairs, Except.ok.injEq] at h
    subst h
    exact ⟨cats, rfl, fun u => by simp⟩
  | t :: rest, e, l, cats, h => by
    cases t with
    | arr xs => simp [tagPairs] at h
    | obj fs => simp [tagPairs] at h
    | null =>
      simp only [tagPairs] at h
      cases hrest : tagPairs rest e with
      | error er => rw [hrest] at h; exact Except.noConfusion h
      | ok l2 =>
        rw [hrest] at h
        simp only [Except.ok.injEq] at h
        subst h
        obtain ⟨cats2, hadd, hlook⟩ := addTags_spec rest e l2 (addEntry cats .null e) hrest
        refine ⟨cats2, by simpa [addTags] using hadd, fun u => ?_⟩
        rw [hlook u, catLookup_addEntry]
        by_cases hu : Json.null = u
        · simp [hu, List.filter_cons]
        · simp [List.filter_cons, hu, fun hh => hu hh]
    | bool b =>
      simp only [tagPairs] at h
      cases hrest : tagPairs rest e with
      | error er => rw [hrest] at h; exact Except.noConfusion h
      | ok l2 =>
        rw [hrest] at h
        simp only [Except.ok.injEq] at h
        subst h
        obtain ⟨cats2, hadd, hlook⟩ := addTags_spec rest e l2 (addEntry cats (.bool b) e) hrest
        refine ⟨cats2, by simpa [addTags] using hadd, fun u => ?_⟩
        rw [hlook u, catLookup_addEntry]
        by_cases hu : Json.bool b = u
        · simp [hu, List.filter_cons]
        · simp [List.filter_cons, hu, fun hh => hu hh]
    | num n =>
      simp only [tagPairs] at h
      cases hrest : tagPairs rest e with
      | error er => rw [hrest] at h; exact Except.noConfusion h
      | ok l2 =>
        rw [hrest] at h
        simp only [Except.ok.injEq] at h
        subst h
        obtain ⟨cats2, hadd, hlook⟩ := addTags_spec rest e l2 (addEntry cats (.num n) e) hrest
        refine ⟨cats2, by simpa [addTags] using hadd, fun u => ?_⟩
        rw [hlook u, catLookup_addEntry]
        by_cases hu : Json.num n = u
        · simp [hu, List.filter_cons]
        · simp [List.filter_cons, hu, fun hh => hu hh]
    | str s =>
      simp only [tagPairs] at h
      cases hrest : tagPairs rest e with
      | error er => rw [hrest] at h; exact Except.noConfusion h
      | ok l2 =>
        rw [hrest] at h
        simp only [Except.ok.injEq] at h
        subst h
        obtain ⟨cats2, hadd, hlook⟩ := addTags_spec rest e l2 (addEntry cats (.str s) e) hrest
        refine ⟨cats2, by simpa [addTags] using hadd, fun u => ?_⟩
        rw [hlook u, catLookup_addEntry]
        by_cases hu : Json.str s = u
        · simp [hu, List.filter_cons]
        · simp [List.filter_cons, hu, fun hh => hu hh]

theorem groupMethods_spec : ∀ (mfs : JFields) (path : String) (l : List (Json × Entry))
    (cats : List (Json × List Entry)), flatMethods path mfs = .ok l →
    ∃ cats2, groupMethods path mfs cats = .ok cats2 ∧
      ∀ u, catLookup cats2 u = catLookup cats u ++ (l.filter (fun p => p.1 == u)).map Prod.snd
  | .nil, path, l, cats, h => by
    simp only [flatMethods, Except.ok.injEq] at h
    subst h
    exact ⟨cats, rfl, fun u => by simp⟩
  | .cons method ed rest, path, l, cats, h => by
    simp only [flatMethods] at h
    by_cases hm : isHttpMethod method = true
    · rw [if_pos hm] at h
      cases hts : tagsOf ed with
      | error er => simp [hts] at h
      | ok ts =>
        simp only [hts] at h
        cases htp : tagPairs ts (path, method, ed) with
        | error er => simp [htp] at h
        | ok l1 =>
          simp only [htp] at h
          cases hfm : flatMethods path rest with
          | error er => simp [hfm] at h
          | ok l2 =>
            simp only [hfm, Except.ok.injEq] at h
            subst h
            obtain ⟨cats1, hadd, hlook1⟩ := addTags_spec ts (path, method, ed) l1 cats htp
            obtain ⟨cats2, hgm, hlook2⟩ := groupMethods_spec rest path l2 cats1 hfm
            refine ⟨cats2, ?_, fun u => ?_⟩
            · simp only [groupMethods, if_pos hm, hts, hadd]
              exact hgm
            · rw [hlook2 u, hlook1 u, List.filter_append, List.map_append, List.append_assoc]
    · rw [if_neg hm] at h
      obtain ⟨cats2, hgm, hlook⟩ := groupMethods_spec rest path l cats h
      refine ⟨cats2, ?_, hlook⟩
      simp only [groupMethods, if_neg hm]
      exact hgm

theorem groupPaths_spec : ∀ (paths : JFields) (l : List (Json × Entry))
    (cats : List (Json × List Entry)), flatPaths paths = .ok l →
    ∃ cats2, groupPaths paths cats = .ok cats2 ∧
      ∀ u, catLookup cats2 u = catLookup cats u ++ (l.filter (fun p => p.1 == u)).map Prod.snd
  | .nil, l, cats, h => by
    simp only [flatPaths, Except.ok.injEq] at h
    subst h
    exact ⟨cats, rfl, fun u => by simp⟩
  | .cons path pd rest, l, cats, h => by
    simp only [flatPaths] at h
    cases pd with
    | obj mfs =>
      cases hfm : flatMethods path mfs with
      | error er => simp [hfm] at h
      | ok l1 =>
        simp only [hfm] at h
        cases hfp : flatPaths rest with
        | error er => simp [hfp] at h
        | ok l2 =>
          simp only [hfp, Except.ok.injEq] at h
          subst h
          obtain ⟨cats1, hgm, hlook1⟩ := groupMethods_spec mfs path l1 cats hfm
          obtain ⟨cats2, hgp, hlook2⟩ := groupPaths_spec rest l2 cats1 hfp
          refine ⟨cats2, ?_, fun u => ?_⟩
          · simp only [groupPaths, hgm]
            exact hgp
          · rw [hlook2 u, hlook1 u, List.filter_append, List.map_append, List.append_assoc]
    | null => exact Except.noConfusion h
    | bool b => exact Except.noConfusion h
    | num n => exact Except.noConfusion h
    | str s => exact Except.noConfusion h
    | arr xs => exact Except.noConfusion h

/-- C9: grouping places each (path, method, operation) record exactly
once per occurrence of each of its tags — the per-tag list is exactly
the tag-filtered flat traversal of the paths (duplicated across tags,
not deduplicated), an untagged operation gets the default
`Uncategorized` tag, and the endpoint count reported by the index
(`len(categories[tag])`) equals that list's length, duplicates
included. -/
theorem claim_C9 :
    (∀ (paths : JFields) (l : List (Json × Entry)), flatPaths paths = .ok l →
      ∃ cats, groupPaths paths [] = .ok cats ∧
        ∀ t, catLookup cats t = (l.filter (fun p => p.1 == t)).map Prod.snd ∧
          (catLookup cats t).length = (l.filter (fun p => p.1 == t)).length) ∧
    (∀ fs : JFields, fsGet fs "tags" = none → tagsOf (.obj fs) = .ok [Json.str "Uncategorized"]) ∧
    (∀ (sfs paths : JFields), fsGet sfs "paths" = some (.obj paths) →
      groupEndpoints (.obj sfs) = groupPaths paths []) := by
  refine ⟨?_, ?_, ?_⟩
  · intro paths l h
    obtain ⟨cats, hgp, hlook⟩ := groupPaths_spec paths l [] h
    refine ⟨cats, hgp, fun t => ?_⟩
    have h2 : catLookup cats t = (l.filter (fun p => p.1 == t)).map Prod.snd := by
      simpa [catLookup] using hlook t
    exact ⟨h2, by rw [h2, List.length_map]⟩
  · intro fs h
    simp [tagsOf, h, pyIter, jarr, JList.ofList, JList.toList]
  · intro sfs paths h
    simp [groupEndpoints, h]

/-- The two-operation paths object of the C9 witness: one operation
tagged `["Products", "Admin"]`, one untagged. -/
def wPaths : JFields := JFields.ofList [
  ("/p", jobj [("get", jobj [("tags", jarr [Json.str "Products", Json.str "Admin"])])]),
  ("/q", jobj [("get", jobj [])])]

/-- The flat (tag, record) traversal of `wPaths`. -/
def wFlat : List (Json × Entry) := [
  (Json.str "Products", ("/p", "get", jobj [("tags", jarr [Json.str "Products", Json.str "Admin"])])),
  (Json.str "Admin", ("/p", "get", jobj [("tags", jarr [Json.str "Products", Json.str "Admin"])])),
  (Json.str "Uncategorized", ("/q", "get", jobj []))]

/-- Witness for C9: the doubly-tagged operation lands once under each
of its two tags with matching counts, and the untagged operation gets
the `Uncategorized` default. -/
theorem claim_C9_witness :
    (∃ cats, groupPaths wPaths [] = .ok cats ∧
      ∀ t, catLookup cats t = (wFlat.filter (fun p => p.1 == t)).map Prod.snd ∧
        (catLookup cats t).length = (wFlat.filter (fun p => p.1 == t)).length) ∧
    tagsOf (jobj []) = .ok [Json.str "Uncategorized"] :=
  ⟨claim_C9.1 wPaths wFlat (by decide), claim_C9.2.1 JFields.nil (by decide)⟩
